import Mathlib

/-!
Verification of the tzstats-go column-driven row decoders (`op.go` for
operations and the block source file for blocks).

The development shallowly embeds the two Go files. Pure Go functions become
Lean functions; a method that mutates its pointer receiver becomes a function
returning the new receiver value together with a return status; a Go runtime
panic (failed type assertion, index out of range) is an explicit `panic`
result constructor, distinct from a returned `error`.

External collaborators (the Go standard library `strconv`/`encoding/json`,
the `tzgo` tezos/micheline libraries, and repository helpers whose sources
were not provided) are modelled by small concrete functions, each carrying a
doc comment saying what it models. The two provided source files are
translated case by case.
-/

set_option autoImplicit false

/-- Go `error` values produced by the decoders: scalar parse failures
(strconv), invalid hash/address encodings (tezos), corrupt binary contract
data (micheline), value projection failures, transport failures, plus a
wrapping constructor for `fmt.Errorf("...: %w", err)`. -/
inductive GoErr where
  | badNum (fn s : String)
  | numRange (fn s : String)
  | invalidEncoding (what s : String)
  | hexErr (s : String)
  | binDecode (what : String)
  | projection (what : String)
  | badJson
  | notArray (what : String)
  | badReceiver (s : String)
  | transport (s : String)
  | wrap (ctx : String) (e : GoErr)
  deriving DecidableEq, Repr

/-- Go runtime panics that the decoders can trigger: a failed interface type
assertion `f.(T)` and an out-of-range slice index. -/
inductive PanicKind where
  | typeAssert
  | indexOutOfRange
  deriving DecidableEq, Repr

/-- Result of evaluating a Go expression/statement sequence that may return a
value, return an error, or panic. -/
inductive DResult (α : Type) where
  | ok (a : α)
  | err (e : GoErr)
  | panic (k : PanicKind)
  deriving DecidableEq, Repr

/-- Return status of a Go method with a pointer receiver: normal `return nil`,
`return err`, or a runtime panic escaping the call. -/
inductive Ret where
  | ok
  | err (e : GoErr)
  | panic (k : PanicKind)
  deriving DecidableEq, Repr

def Ret.isErr : Ret → Bool
  | .err _ => true
  | _ => false

/-- Model of Go `strconv.ParseUint(s, 10, bits)`: non-empty decimal digit
string within range, otherwise a syntax or range error. -/
def parseUintGo (s : String) (bits : Nat) : Except GoErr Nat :=
  let ds := s.toList
  if ds = [] then .error (.badNum "ParseUint" s)
  else if !ds.all Char.isDigit then .error (.badNum "ParseUint" s)
  else
    let n : Nat := ds.foldl (fun a c => a * 10 + (c.toNat - '0'.toNat)) 0
    if n < 2 ^ bits then .ok n else .error (.numRange "ParseUint" s)

/-- Model of Go `strconv.ParseInt(s, 10, bits)`: optional sign, decimal
digits, range-checked. -/
def parseIntGo (s : String) (bits : Nat) : Except GoErr Int :=
  let (neg, ds) :=
    match s.toList with
    | '-' :: rest => (true, rest)
    | '+' :: rest => (false, rest)
    | l => (false, l)
  if ds = [] then .error (.badNum "ParseInt" s)
  else if !ds.all Char.isDigit then .error (.badNum "ParseInt" s)
  else
    let n : Nat := ds.foldl (fun a c => a * 10 + (c.toNat - '0'.toNat)) 0
    let v : Int := if neg then -(n : Int) else (n : Int)
    if -(2 ^ (bits - 1) : Int) ≤ v ∧ v < (2 ^ (bits - 1) : Int) then .ok v
    else .error (.numRange "ParseInt" s)

/-- Model of Go `strconv.Atoi` (`ParseInt` at the platform int width, 64 bits
here). -/
def atoiGo (s : String) : Except GoErr Int :=
  parseIntGo s 64

/-- Model of Go `strconv.ParseBool`: the fixed set of accepted literals. -/
def parseBoolGo (s : String) : Except GoErr Bool :=
  if s = "1" ∨ s = "t" ∨ s = "T" ∨ s = "TRUE" ∨ s = "true" ∨ s = "True" then .ok true
  else if s = "0" ∨ s = "f" ∨ s = "F" ∨ s = "FALSE" ∨ s = "false" ∨ s = "False" then .ok false
  else .error (.badNum "ParseBool" s)

/-- Helper for the float-format check: digits with at most one dot and at
least one digit. -/
def mantissaOk (cs : List Char) : Bool :=
  (cs.any Char.isDigit) &&
    (cs.all fun c => c.isDigit || c = '.') &&
    (cs.filter (· = '.')).length ≤ 1

/-- Model of the syntax accepted by Go `strconv.ParseFloat` restricted to
decimal forms (sign, mantissa, optional exponent); hex floats and inf/nan
spellings are outside the inputs the decoders can receive from a JSON
number. -/
def floatFormatOk (s : String) : Bool :=
  let cs :=
    match s.toList with
    | '-' :: rest => rest
    | '+' :: rest => rest
    | l => l
  match cs.span (fun c => !(c = 'e' || c = 'E')) with
  | (m, []) => mantissaOk m
  | (m, _ :: ex) => mantissaOk m && exponentOk ex
where
  exponentOk (ex : List Char) : Bool :=
    let ds := match ex with
      | '-' :: rest => rest
      | '+' :: rest => rest
      | l => l
    ds ≠ [] && ds.all Char.isDigit

/-- Shallow stand-in for a Go `float64`: the zero value or a parsed literal.
No claim depends on IEEE-754 arithmetic, only on parse success/failure and on
the zero value, so the literal is kept verbatim. -/
inductive GoFloat where
  | zero
  | lit (s : String)
  deriving DecidableEq, Repr

/-- Model of Go `strconv.ParseFloat(s, bitSize)`. Any `bitSize` other than 32
is treated by Go exactly like 64, which is why the block decoder's stray
`ParseFloat(s, 4)` still parses 64-bit floats; the model keeps the argument
but its value does not change the accepted syntax. -/
def parseFloatGo (s : String) (_bits : Nat) : Except GoErr GoFloat :=
  if floatFormatOk s then .ok (.lit s) else .error (.badNum "ParseFloat" s)

/-- Shallow stand-in for Go `time.Time`: the zero value or an instant built by
`time.Unix(0, ms*1e6).UTC()` from a millisecond count. -/
inductive GoTime where
  | zero
  | unixMilli (ms : Int)
  deriving DecidableEq, Repr

def hexDigitVal (c : Char) : Option Nat :=
  if '0' ≤ c ∧ c ≤ '9' then some (c.toNat - '0'.toNat)
  else if 'a' ≤ c ∧ c ≤ 'f' then some (c.toNat - 'a'.toNat + 10)
  else if 'A' ≤ c ∧ c ≤ 'F' then some (c.toNat - 'A'.toNat + 10)
  else none

def hexDecodeList : List Char → Option (List Nat)
  | [] => some []
  | [_] => none
  | hi :: lo :: rest =>
    match hexDigitVal hi, hexDigitVal lo, hexDecodeList rest with
    | some h, some l, some bs => some ((h * 16 + l) :: bs)
    | _, _, _ => none

/-- Model of Go `encoding/hex.DecodeString`: even-length hex text to a byte
list. -/
def hexDecodeString (s : String) : Except GoErr (List Nat) :=
  match hexDecodeList s.toList with
  | some bs => .ok bs
  | none => .error (.hexErr s)

/-- Model of a `tezos.Address` value: the base58 text, zero value "". -/
structure Address where
  s : String := ""
  deriving DecidableEq, Repr

def listPrefixOk : List Char → List Char → Bool
  | [], _ => true
  | _ :: _, [] => false
  | a :: as, b :: bs => a = b && listPrefixOk as bs

/-- Model of the `tezos` base58check validation of addresses: the library
accepts the standard tz1/tz2/tz3/KT1 prefixes at the fixed encoded length.
The checksum itself is not re-implemented; the claims depend only on the
existence of valid and invalid inputs. -/
def addressFormatOk (x : String) : Bool :=
  let cs := x.toList
  (listPrefixOk "tz1".toList cs || listPrefixOk "tz2".toList cs ||
     listPrefixOk "tz3".toList cs || listPrefixOk "KT1".toList cs) &&
    cs.length = 36

/-- Model of `tezos.ParseAddress`. -/
def parseAddressGo (x : String) : Except GoErr Address :=
  if addressFormatOk x then .ok ⟨x⟩ else .error (.invalidEncoding "Address" x)

/-- Model of a `tezos.OpHash` value. -/
structure OpHash where
  s : String := ""
  deriving DecidableEq, Repr

/-- Model of `tezos.ParseOpHash` (prefix `o`, fixed encoded length). -/
def parseOpHashGo (x : String) : Except GoErr OpHash :=
  if listPrefixOk "o".toList x.toList && x.toList.length = 51 then .ok ⟨x⟩
  else .error (.invalidEncoding "OpHash" x)

/-- Model of a `tezos.BlockHash` value. -/
structure BlockHash where
  s : String := ""
  deriving DecidableEq, Repr

/-- Model of `tezos.ParseBlockHash` (prefix `B`, fixed encoded length). -/
def parseBlockHashGo (x : String) : Except GoErr BlockHash :=
  if listPrefixOk "B".toList x.toList && x.toList.length = 51 then .ok ⟨x⟩
  else .error (.invalidEncoding "BlockHash" x)

/-- Modelled from the spec: the repository's `OpType` enumeration (its source
file is not under the provided sources). Unknown spellings fail-soft to the
`invalid` sentinel instead of producing an error; a representative subset of
members is kept. -/
inductive OpType where
  | invalid
  | transaction
  | origination
  | delegation
  | reveal
  | endorsement
  deriving DecidableEq, Repr

/-- Modelled from the spec: `ParseOpType`, a closed-set enum parse that
fail-softs to the unknown sentinel. -/
def parseOpTypeGo (s : String) : OpType :=
  match s with
  | "transaction" => .transaction
  | "origination" => .origination
  | "delegation" => .delegation
  | "reveal" => .reveal
  | "endorsement" => .endorsement
  | _ => .invalid

/-- Model of `tezos.OpStatus`. -/
inductive OpStatus where
  | invalid
  | applied
  | failed
  | backtracked
  | skipped
  deriving DecidableEq, Repr

/-- Model of `tezos.ParseOpStatus` (fail-soft to the invalid sentinel). -/
def parseOpStatusGo (s : String) : OpStatus :=
  match s with
  | "applied" => .applied
  | "failed" => .failed
  | "backtracked" => .backtracked
  | "skipped" => .skipped
  | _ => .invalid

/-- Model of `tezos.VotingPeriodKind`. -/
inductive VotingPeriodKind where
  | invalid
  | proposal
  | exploration
  | cooldown
  | promotion
  | adoption
  deriving DecidableEq, Repr

/-- Model of `tezos.ParseVotingPeriod` (fail-soft to the invalid sentinel). -/
def parseVotingPeriodGo (s : String) : VotingPeriodKind :=
  match s with
  | "proposal" => .proposal
  | "exploration" => .exploration
  | "cooldown" => .cooldown
  | "promotion" => .promotion
  | "adoption" => .adoption
  | _ => .invalid

/-- Model of a `micheline.Prim` tree: the zero value `Prim{}`, literals, and
tagged applications of sub-nodes. -/
inductive MichPrim where
  | zero
  | int (n : Int)
  | str (s : String)
  | bytes (bs : List Nat)
  | node (tag : Nat) (args : List MichPrim)

/-- Model of a `micheline.Type` (a wrapper around a type `Prim`). -/
structure MichType where
  prim : MichPrim := .zero

/-- Model of `micheline.Type.IsValid`: the zero type is invalid. -/
def MichType.isValid (t : MichType) : Bool :=
  match t.prim with
  | .zero => false
  | _ => true

/-- Model of `micheline.Type.Left`: the first argument of the type prim. -/
def MichType.left (t : MichType) : MichType :=
  match t.prim with
  | .node _ (a :: _) => ⟨a⟩
  | _ => ⟨.zero⟩

/-- Model of `micheline.Type.Right`: the second argument of the type prim. -/
def MichType.right (t : MichType) : MichType :=
  match t.prim with
  | .node _ (_ :: b :: _) => ⟨b⟩
  | _ => ⟨.zero⟩

/-- Model of `micheline.Prim.BuildType`: the type structurally inferred from
a value prim; always a valid (non-zero) type. -/
def MichPrim.buildType (p : MichPrim) : MichType :=
  ⟨.node 1 [p]⟩

/-- Model of `micheline.Prim.IsEmptyBigmap`: the reserved placeholder
encoding that denotes "no real key". -/
def MichPrim.isEmptyBigmap (p : MichPrim) : Bool :=
  match p with
  | .node 0 [] => true
  | _ => false

/-- Model of a `micheline.Typedef` produced by `Type.TypedefPtr(name)`. -/
structure Typedef where
  name : String := ""
  prim : MichPrim := .zero

/-- Model of `micheline.Type.TypedefPtr`. -/
def MichType.typedefPtr (t : MichType) (name : String) : Typedef :=
  ⟨name, t.prim⟩

/-- Semantic mapping produced by `micheline.Value.Map()`: the human-readable
projection of a prim through a type. Its internal layout is irrelevant to the
claims, so the model keeps the pair that determined it. -/
structure SemVal where
  ty : MichType
  prim : MichPrim

/-- Model of the structural compatibility check inside `micheline.Value.Map`:
a designated mismatch pattern exists so that projection failures are
representable. -/
def wellTyped (t : MichType) (p : MichPrim) : Bool :=
  match t.prim, p with
  | _, .node 13 [] => false
  | _, _ => true

/-- Modelled from the spec: `micheline.Value.Map()` with `Render` set to the
caller's error mode. An invalid type yields no semantic value and no error
(untyped fallback); a valid type projects the prim, and a projection mismatch
is fatal in strict mode (`render = 0`) but renders a best-effort value in
lenient mode. -/
def valMap (render : Int) (t : MichType) (p : MichPrim) : Except GoErr (Option SemVal) :=
  if !t.isValid then .ok none
  else if wellTyped t p then .ok (some ⟨t, p⟩)
  else if render ≠ 0 then .ok (some ⟨t, p⟩)
  else .error (.projection "type mismatch")

/-- Model of `micheline.Parameters`: entrypoint name plus value prim. -/
structure MichParameters where
  entrypoint : String := ""
  value : MichPrim := .zero

/-- Model of the binary layout accepted by `micheline.Prim.UnmarshalBinary`:
a leading tag byte selects an int or string literal; anything else is a
`BinaryDecodeError`. The claims need only that well-formed payloads decode
and malformed ones fail. -/
def primUnmarshalBinary (bs : List Nat) : Except GoErr MichPrim :=
  match bs with
  | 0 :: rest => .ok (.int (rest.foldl (fun a b => a * 256 + b) 0))
  | 1 :: rest => .ok (.str (String.mk (rest.map Char.ofNat)))
  | 13 :: [] => .ok (.node 13 [])
  | _ => .error (.binDecode "prim")

/-- Model of `micheline.Parameters.UnmarshalBinary`: a leading byte gives the
entrypoint-name length, then the name bytes, then the value prim. -/
def paramsUnmarshalBinary (bs : List Nat) : Except GoErr MichParameters :=
  match bs with
  | [] => .error (.binDecode "parameters")
  | n :: rest =>
    if n ≤ rest.length then
      match primUnmarshalBinary (rest.drop n) with
      | .ok p => .ok ⟨String.mk ((rest.take n).map Char.ofNat), p⟩
      | .error e => .error e
    else .error (.binDecode "parameters")

/-- Modelled from the spec: `micheline.Parameters.MapEntrypoint(typ)` locates
the expected type for the call (the resolved parameter type when valid, the
zero type otherwise) and returns it with the value prim; its error result is
discarded by the caller. The entrypoint-table refinement is not needed by any
claim. -/
def mapEntrypoint (t : MichType) (ps : MichParameters) : MichType × MichPrim :=
  (t, ps.value)

/-- Model of a `micheline.DiffAction`. -/
inductive DiffAction where
  | alloc
  | copy
  | update
  | remove
  deriving DecidableEq, Repr

/-- Model of one element of `micheline.BigmapEvents`. -/
structure BigmapEvent where
  action : DiffAction := .alloc
  id : Int := 0
  keyType : MichPrim := .zero
  valueType : MichPrim := .zero
  sourceId : Int := 0
  destId : Int := 0
  key : MichPrim := .zero
  keyHash : String := ""
  value : MichPrim := .zero

def byteToPrim (n : Nat) : MichPrim :=
  if n = 255 then .node 0 [] else .int n

def bigmapEventsOfBytes : List Nat → Option (List BigmapEvent)
  | [] => some []
  | a :: i :: k :: v :: h :: rest =>
    if a ≤ 3 then
      match bigmapEventsOfBytes rest with
      | some evs =>
        let act : DiffAction :=
          match a with
          | 0 => .alloc
          | 1 => .copy
          | 2 => .update
          | _ => .remove
        some ({ action := act, id := (i : Int), keyType := byteToPrim k,
                valueType := byteToPrim v, sourceId := (i : Int), destId := (i : Int),
                key := byteToPrim k, keyHash := toString h,
                value := byteToPrim v } :: evs)
      | none => none
    else none
  | _ => none

/-- Model of the binary layout accepted by `micheline.BigmapEvents`'s
`UnmarshalBinary`: five bytes per event (action, id, key byte, value byte,
hash byte); anything else is a `BinaryDecodeError`. -/
def bigmapEventsUnmarshalBinary (bs : List Nat) : Except GoErr (List BigmapEvent) :=
  match bigmapEventsOfBytes bs with
  | some evs => .ok evs
  | none => .error (.binDecode "bigmap events")

/-- Model of the repository's `MultiKey` as produced by round-tripping
`BigmapEvent.GetKey(ktyp)` through JSON (`GetKey(ktyp).MarshalJSON` then
`MultiKey.UnmarshalJSON`, both error-ignored in the source). -/
structure MultiKey where
  ty : MichType := {}
  key : MichPrim := .zero

/-- Model of the composed key conversion in the big-map branch. -/
def multiKeyOf (ktyp : MichType) (key : MichPrim) : MultiKey :=
  ⟨ktyp, key⟩

/-- A JSON scalar as produced by Go `encoding/json` decoding into
`interface{}` with `UseNumber`: `nil`, `json.Number`, `string`, or `bool`.
The two decoders only ever read scalars out of the unpacked row array. -/
inductive JsonVal where
  | null
  | num (s : String)
  | str (s : String)
  | bool (b : Bool)
  deriving DecidableEq, Repr

/-- Model of the Go type assertion `f.(json.Number)`: panics unless the
dynamic value is a number. -/
def JsonVal.asNumber : JsonVal → DResult String
  | .num s => .ok s
  | _ => .panic .typeAssert

/-- Model of the Go type assertion `f.(string)`. -/
def JsonVal.asString : JsonVal → DResult String
  | .str s => .ok s
  | _ => .panic .typeAssert

/-- Model of `json.Marshal` applied to an unpacked scalar (the `data` and
`errors` columns re-serialize the raw value). -/
def jsonMarshalVal : JsonVal → String
  | .null => "null"
  | .num s => s
  | .str s => "\"" ++ s ++ "\""
  | .bool b => if b then "true" else "false"

/-- String rendering used when a table cell is read back as text (the raw
token for numbers and literals, the unquoted body for strings). -/
def JsonVal.render : JsonVal → String
  | .null => "null"
  | .num s => s
  | .str s => s
  | .bool b => if b then "true" else "false"

def jsonWs (c : Char) : Bool :=
  c = ' ' || c = '\t' || c = '\n' || c = '\r'

def numberChar (c : Char) : Bool :=
  c.isDigit || c = '-' || c = '+' || c = '.' || c = 'e' || c = 'E'

/-- One scalar token from the head of the character stream. -/
def parseScalar (cs : List Char) : Option (JsonVal × List Char) :=
  match cs with
  | '"' :: rest =>
    match rest.span (fun c => !(c = '"')) with
    | (body, '"' :: after) => some (.str (String.mk body), after)
    | _ => none
  | 'n' :: 'u' :: 'l' :: 'l' :: rest => some (.null, rest)
  | 't' :: 'r' :: 'u' :: 'e' :: rest => some (.bool true, rest)
  | 'f' :: 'a' :: 'l' :: 's' :: 'e' :: rest => some (.bool false, rest)
  | c :: _ =>
    if numberChar c then
      match cs.span numberChar with
      | (tok, after) => some (.num (String.mk tok), after)
    else none
  | [] => none

def parseElems (fuel : Nat) (cs : List Char) : Option (List JsonVal) :=
  match fuel with
  | 0 => none
  | fuel + 1 =>
    match parseScalar (cs.dropWhile jsonWs) with
    | none => none
    | some (v, after) =>
      match after.dropWhile jsonWs with
      | ',' :: rest =>
        match parseElems fuel rest with
        | some vs => some (v :: vs)
        | none => none
      | ']' :: rest => if (rest.dropWhile jsonWs) = [] then some [v] else none
      | _ => none

/-- Model of `json.NewDecoder(...).Decode(&unpacked)` with `UseNumber` for a
columnar row: a JSON array of scalars. Nested arrays/objects inside a row are
not modelled; the columnar wire format carries scalars. -/
def jsonDecodeScalars (s : String) : Option (List JsonVal) :=
  let cs := s.toList.dropWhile jsonWs
  match cs with
  | '[' :: rest =>
    match rest.dropWhile jsonWs with
    | ']' :: tail => if (tail.dropWhile jsonWs) = [] then some [] else none
    | _ => parseElems (rest.length + 1) rest
  | _ => none

/-- Repository type `ContractValue`: semantic value plus optional prim. -/
structure ContractValue where
  value : Option SemVal := none
  prim : Option MichPrim := none

/-- Repository type `ContractParameters`: entrypoint name plus embedded
`ContractValue`. -/
structure ContractParameters where
  entrypoint : String := ""
  cv : ContractValue := {}

/-- Repository type `BigmapMeta` (provenance metadata attached to update and
remove records when requested). -/
structure BigmapMeta where
  contract : Address := {}
  bigmapId : Int := 0
  updateTime : GoTime := .zero
  updateHeight : Int := 0

/-- Repository type `BigmapValue`. -/
structure BigmapValue where
  key : MultiKey := {}
  hash : String := ""
  meta : Option BigmapMeta := none
  value : Option SemVal := none
  keyPrim : Option MichPrim := none
  valuePrim : Option MichPrim := none

/-- Repository type `BigmapUpdate`: one decoded big-map diff record. -/
structure BigmapUpdate where
  action : DiffAction := .alloc
  bigmapId : Int := 0
  keyType : Option Typedef := none
  valueType : Option Typedef := none
  sourceId : Int := 0
  destId : Int := 0
  keyTypePrim : Option MichPrim := none
  valueTypePrim : Option MichPrim := none
  bigmapValue : BigmapValue := {}

/-- Repository type `ContractScript` restricted to what `Types()` exposes:
parameter type, storage type, entrypoint table, and the big-map id to type
table. -/
structure ContractScript where
  param : MichType := {}
  store : MichType := {}
  eps : List (String × MichType) := []
  bigmaps : List (Int × MichType) := []

/-- Lookup in the `map[int64]micheline.Type` big-map table (a nil map looks
up to not-found). -/
def bigmapLookup (m : List (Int × MichType)) (id : Int) : Option MichType :=
  (m.find? (fun p => p.1 = id)).map Prod.snd

/-- The fields of the repository type `Op`, parametrized by the type of the
nested `Batch`/`Internal` children so that `Op` itself can close the
recursion. `Metadata` (an explorer-only map type defined outside the provided
sources and never touched by the decoders) is omitted. -/
structure OpData (β : Type) where
  id : Nat := 0
  hash : OpHash := {}
  type : OpType := .invalid
  block : BlockHash := {}
  timestamp : GoTime := .zero
  height : Int := 0
  cycle : Int := 0
  counter : Int := 0
  opN : Int := 0
  opP : Int := 0
  status : OpStatus := .invalid
  isSuccess : Bool := false
  isContract : Bool := false
  isBatch : Bool := false
  isEvent : Bool := false
  isInternal : Bool := false
  gasLimit : Int := 0
  gasUsed : Int := 0
  storageLimit : Int := 0
  storagePaid : Int := 0
  volume : GoFloat := .zero
  fee : GoFloat := .zero
  reward : GoFloat := .zero
  deposit : GoFloat := .zero
  burned : GoFloat := .zero
  tdd : GoFloat := .zero
  senderId : Nat := 0
  receiverId : Nat := 0
  creatorId : Nat := 0
  bakerId : Nat := 0
  sender : Address := {}
  receiver : Address := {}
  creator : Address := {}
  baker : Address := {}
  prevBaker : Address := {}
  source : Address := {}
  offender : Address := {}
  accuser : Address := {}
  data : Option String := none
  errors : Option String := none
  parameters : Option ContractParameters := none
  storage : Option ContractValue := none
  bigmapDiff : List BigmapUpdate := []
  value : MichPrim := .zero
  power : Int := 0
  limit : Option GoFloat := none
  confirmations : Int := 0
  batchVolume : GoFloat := .zero
  entrypoint : String := ""
  nOps : Int := 0
  batch : List β := []
  internal : List β := []
  columns : List String := []
  param : MichType := {}
  store : MichType := {}
  eps : List (String × MichType) := []
  bigmaps : List (Int × MichType) := []
  withPrim : Bool := false
  withMeta : Bool := false
  onError : Int := 0

/-- Repository type `Op` (closing the `Batch`/`Internal` recursion). -/
inductive Op where
  | mk (d : OpData Op)

/-- Projection to the field record. -/
def Op.d : Op → OpData Op
  | .mk x => x

/-- Field update on an `Op`. -/
def Op.upd (o : Op) (f : OpData Op → OpData Op) : Op :=
  .mk (f o.d)

instance : Inhabited Op := ⟨.mk {}⟩

@[simp] theorem Op.d_mk (x : OpData Op) : (Op.mk x).d = x := rfl

@[simp] theorem Op.upd_d (o : Op) (f : OpData Op → OpData Op) :
    (o.upd f).d = f o.d := rfl

/-- Embedding of `Op.Cursor` (op.go:113-122): step to the last batch child
when the batch is non-empty, then to that operation's last internal child
when present, and return the resulting id. -/
def Op.cursor (o : Op) : Nat :=
  let op1 := match o.d.batch.getLast? with
    | some b => b
    | none => o
  let op2 := match op1.d.internal.getLast? with
    | some i => i
    | none => op1
  op2.d.id

/-- Embedding of `Op.WithScript` (op.go:129-136). -/
def Op.withScript (o : Op) (s : Option ContractScript) : Op :=
  match s with
  | some sc => o.upd fun d =>
      { d with param := sc.param, store := sc.store, eps := sc.eps, bigmaps := sc.bigmaps }
  | none => o.upd fun d =>
      { d with param := {}, store := {}, eps := [], bigmaps := [] }

/-- Repository type `OpList` (the client/context handles are replaced by the
resolver function passed to the decoding functions). -/
structure OpList where
  rows : List Op := []
  withPrim : Bool := false
  columns : List String := []

/-- Embedding of `OpList.Len`. -/
def OpList.len (l : OpList) : Nat :=
  l.rows.length

/-- Embedding of `OpList.Cursor` (op.go:173-179): 0 when empty, otherwise the
`Id` field of the last row. -/
def OpList.cursor (l : OpList) : Nat :=
  match l.rows.getLast? with
  | none => 0
  | some r => r.d.id

/-- Decode pattern `op.X, err = parse(f.(json.Number).String())`: assert a
JSON number, run the strconv parser, store the field on success. -/
def numFieldOp {α β : Type} (f : JsonVal) (parse : String → Except GoErr α)
    (set : α → β) : DResult β :=
  match f.asNumber with
  | .ok s =>
    match parse s with
    | .ok a => .ok (set a)
    | .error e => .err e
  | .err e => .err e
  | .panic k => .panic k

/-- Decode pattern `op.X, err = parse(f.(string))`. -/
def strFieldOp {α β : Type} (f : JsonVal) (parse : String → Except GoErr α)
    (set : α → β) : DResult β :=
  match f.asString with
  | .ok s =>
    match parse s with
    | .ok a => .ok (set a)
    | .error e => .err e
  | .err e => .err e
  | .panic k => .panic k

/-- Decode pattern `op.X = convert(f.(string))` for fail-soft conversions
that produce no error. -/
def strSoftOp {β : Type} (f : JsonVal) (set : String → β) : DResult β :=
  match f.asString with
  | .ok s => .ok (set s)
  | .err e => .err e
  | .panic k => .panic k

/-- Embedding of the `"parameters"` case of `Op.UnmarshalJSONBrief`
(op.go:333-353): hex-decode, binary-decode, entrypoint mapping against the
receiver's resolved parameter type, optional prim retention, semantic
projection with error wrapping. An empty payload is skipped silently. -/
def opStepParameters (o op : Op) (f : JsonVal) : DResult Op :=
  match f.asString with
  | .ok s =>
    match hexDecodeString s with
    | .error e => .err e
    | .ok buf =>
      if buf = [] then .ok op
      else
        match paramsUnmarshalBinary buf with
        | .error e => .err e
        | .ok params =>
          let ep := (mapEntrypoint o.d.param params).1
          let prim := (mapEntrypoint o.d.param params).2
          let cp0 : ContractParameters := { entrypoint := params.entrypoint }
          let cp1 := if o.d.withPrim then { cp0 with cv := { cp0.cv with prim := some prim } } else cp0
          match valMap o.d.onError ep prim with
          | .ok v =>
            .ok (op.upd fun d => { d with parameters := some { cp1 with cv := { cp1.cv with value := v } } })
          | .error e => .err (.wrap ("decoding params " ++ s) e)
  | .err e => .err e
  | .panic k => .panic k

/-- Embedding of the `"storage"` case (op.go:354-373): hex-decode,
binary-decode, optional prim retention, and semantic projection only when the
receiver's storage type resolved as valid. -/
def opStepStorage (o op : Op) (f : JsonVal) : DResult Op :=
  match f.asString with
  | .ok s =>
    match hexDecodeString s with
    | .error e => .err e
    | .ok buf =>
      if buf = [] then .ok op
      else
        match primUnmarshalBinary buf with
        | .error e => .err e
        | .ok prim =>
          let cv0 : ContractValue := {}
          let cv1 := if o.d.withPrim then { cv0 with prim := some prim } else cv0
          if o.d.store.isValid then
            match valMap o.d.onError o.d.store prim with
            | .ok v => .ok (op.upd fun d => { d with storage := some { cv1 with value := v } })
            | .error e => .err (.wrap ("decoding storage " ++ s) e)
          else .ok (op.upd fun d => { d with storage := some cv1 })
  | .err e => .err e
  | .panic k => .panic k

/-- Embedding of the per-event body of the `"big_map_diff"` loop
(op.go:381-442). `o` is the method receiver (config flags and resolved
types); `op` is the scratch record whose already-parsed receiver, timestamp
and height feed the provenance metadata. Note that the alloc/copy branch
tests `op.withPrim` on the scratch record (always false there), exactly as
the source does, while the other branches test `o.withPrim`. -/
def bigmapUpdateOfEvent (o op : Op) (v : BigmapEvent) : Except GoErr BigmapUpdate :=
  let tpair : MichType × MichType :=
    match bigmapLookup o.d.bigmaps v.id with
    | some typ => (typ.left, typ.right)
    | none => (v.key.buildType, {})
  let ktyp := tpair.1
  let vtyp := tpair.2
  let base : BigmapUpdate := { action := v.action, bigmapId := v.id }
  match v.action with
  | .alloc | .copy =>
    .ok { base with
      keyType := some ((⟨v.keyType⟩ : MichType).typedefPtr "@key"),
      valueType := some ((⟨v.valueType⟩ : MichType).typedefPtr "@value"),
      sourceId := v.sourceId,
      destId := v.destId,
      keyTypePrim := if op.d.withPrim then some v.keyType else none,
      valueTypePrim := if op.d.withPrim then some v.valueType else none }
  | _ =>
    let bv0 : BigmapValue := {}
    let bv1 :=
      if !v.key.isEmptyBigmap then
        { bv0 with key := multiKeyOf ktyp v.key, hash := v.keyHash }
      else bv0
    let bv2 :=
      if o.d.withMeta then
        { bv1 with meta := some { contract := op.d.receiver, bigmapId := v.id,
                                  updateTime := op.d.timestamp, updateHeight := op.d.height } }
      else bv1
    let bv3 := if o.d.withPrim then { bv2 with keyPrim := some v.key } else bv2
    if v.action = .update then
      let bv4 := if o.d.withPrim then { bv3 with valuePrim := some v.value } else bv3
      if vtyp.isValid then
        match valMap o.d.onError vtyp v.value with
        | .ok mv => .ok { base with bigmapValue := { bv4 with value := mv } }
        | .error e => .error (.wrap ("decoding bigmap " ++ toString v.id ++ "/" ++ v.keyHash) e)
      else .ok { base with bigmapValue := bv4 }
    else .ok { base with bigmapValue := bv3 }

/-- The `"big_map_diff"` loop over all events: the first per-event error
breaks the loop and is surfaced. -/
def decodeBigmapList (o op : Op) : List BigmapEvent → Except GoErr (List BigmapUpdate)
  | [] => .ok []
  | v :: rest =>
    match bigmapUpdateOfEvent o op v with
    | .error e => .error e
    | .ok r =>
      match decodeBigmapList o op rest with
      | .ok rs => .ok (r :: rs)
      | .error e => .error e

/-- Embedding of the `"big_map_diff"` case (op.go:374-445). -/
def opStepBigmapDiff (o op : Op) (f : JsonVal) : DResult Op :=
  match f.asString with
  | .ok s =>
    match hexDecodeString s with
    | .error e => .err e
    | .ok buf =>
      if buf = [] then .ok op
      else
        match bigmapEventsUnmarshalBinary buf with
        | .error e => .err e
        | .ok bmd =>
          match decodeBigmapList o op bmd with
          | .ok rs => .ok (op.upd fun d => { d with bigmapDiff := rs })
          | .error e => .err e
  | .err e => .err e
  | .panic k => .panic k

/-- Embedding of the column switch of `Op.UnmarshalJSONBrief`
(op.go:250-446): one case per known column name; unrecognized names fall
through with no effect. `o` is the method receiver (configuration), `op` the
scratch record being populated. -/
def opStep (o op : Op) (c : String) (f : JsonVal) : DResult Op :=
  match c with
  | "id" => numFieldOp f (parseUintGo · 64) (fun n => op.upd fun d => { d with id := n })
  | "hash" => strFieldOp f parseOpHashGo (fun h => op.upd fun d => { d with hash := h })
  | "type" => strSoftOp f (fun s => op.upd fun d => { d with type := parseOpTypeGo s })
  | "block" => strFieldOp f parseBlockHashGo (fun h => op.upd fun d => { d with block := h })
  | "time" => numFieldOp f (parseIntGo · 64) (fun ts => op.upd fun d => { d with timestamp := .unixMilli ts })
  | "height" => numFieldOp f (parseIntGo · 64) (fun n => op.upd fun d => { d with height := n })
  | "cycle" => numFieldOp f (parseIntGo · 64) (fun n => op.upd fun d => { d with cycle := n })
  | "counter" => numFieldOp f (parseIntGo · 64) (fun n => op.upd fun d => { d with counter := n })
  | "op_n" => numFieldOp f atoiGo (fun n => op.upd fun d => { d with opN := n })
  | "op_p" => numFieldOp f atoiGo (fun n => op.upd fun d => { d with opP := n })
  | "status" => strSoftOp f (fun s => op.upd fun d => { d with status := parseOpStatusGo s })
  | "is_success" => numFieldOp f parseBoolGo (fun b => op.upd fun d => { d with isSuccess := b })
  | "is_contract" => numFieldOp f parseBoolGo (fun b => op.upd fun d => { d with isContract := b })
  | "is_batch" => numFieldOp f parseBoolGo (fun b => op.upd fun d => { d with isBatch := b })
  | "is_event" => numFieldOp f parseBoolGo (fun b => op.upd fun d => { d with isEvent := b })
  | "is_internal" => numFieldOp f parseBoolGo (fun b => op.upd fun d => { d with isInternal := b })
  | "gas_limit" => numFieldOp f (parseIntGo · 64) (fun n => op.upd fun d => { d with gasLimit := n })
  | "gas_used" => numFieldOp f (parseIntGo · 64) (fun n => op.upd fun d => { d with gasUsed := n })
  | "storage_limit" => numFieldOp f (parseIntGo · 64) (fun n => op.upd fun d => { d with storageLimit := n })
  | "storage_paid" => numFieldOp f (parseIntGo · 64) (fun n => op.upd fun d => { d with storagePaid := n })
  | "volume" => numFieldOp f (parseFloatGo · 64) (fun x => op.upd fun d => { d with volume := x })
  | "fee" => numFieldOp f (parseFloatGo · 64) (fun x => op.upd fun d => { d with fee := x })
  | "reward" => numFieldOp f (parseFloatGo · 64) (fun x => op.upd fun d => { d with reward := x })
  | "deposit" => numFieldOp f (parseFloatGo · 64) (fun x => op.upd fun d => { d with deposit := x })
  | "burned" => numFieldOp f (parseFloatGo · 64) (fun x => op.upd fun d => { d with burned := x })
  | "days_destroyed" => numFieldOp f (parseFloatGo · 64) (fun x => op.upd fun d => { d with tdd := x })
  | "sender_id" => numFieldOp f (parseUintGo · 64) (fun n => op.upd fun d => { d with senderId := n })
  | "receiver_id" => numFieldOp f (parseUintGo · 64) (fun n => op.upd fun d => { d with receiverId := n })
  | "creator_id" => numFieldOp f (parseUintGo · 64) (fun n => op.upd fun d => { d with creatorId := n })
  | "baker_id" => numFieldOp f (parseUintGo · 64) (fun n => op.upd fun d => { d with bakerId := n })
  | "sender" => strFieldOp f parseAddressGo (fun a => op.upd fun d => { d with sender := a })
  | "receiver" => strFieldOp f parseAddressGo (fun a => op.upd fun d => { d with receiver := a })
  | "creator" => strFieldOp f parseAddressGo (fun a => op.upd fun d => { d with creator := a })
  | "baker" => strFieldOp f parseAddressGo (fun a => op.upd fun d => { d with baker := a })
  | "data" => .ok (op.upd fun d => { d with data := some (jsonMarshalVal f) })
  | "errors" => .ok (op.upd fun d => { d with errors := some (jsonMarshalVal f) })
  | "entrypoint" => strSoftOp f (fun s => op.upd fun d =>
      { d with parameters := some { (d.parameters.getD {}) with entrypoint := s }, entrypoint := s })
  | "parameters" => opStepParameters o op f
  | "storage" => opStepStorage o op f
  | "big_map_diff" => opStepBigmapDiff o op f
  | _ => .ok op

/-- Embedding of the `for i, v := range o.columns` loop of
`Op.UnmarshalJSONBrief` (op.go:245-450): index into the unpacked value array
(panicking out of range), skip nulls, dispatch the switch, and abort on the
first error or panic. -/
def opDecodeLoop (o : Op) (unpacked : List JsonVal) : List String → Nat → Op → DResult Op
  | [], _, op => .ok op
  | c :: rest, i, op =>
    match unpacked[i]? with
    | none => .panic .indexOutOfRange
    | some .null => opDecodeLoop o unpacked rest (i + 1) op
    | some f =>
      match opStep o op c f with
      | .ok op' => opDecodeLoop o unpacked rest (i + 1) op'
      | .err e => .err e
      | .panic k => .panic k

/-- Embedding of `Op.UnmarshalJSONBrief` (op.go:236-453). The first component
is the value of the pointed-to receiver when the call finishes: the body
decodes into a fresh scratch record `op := Op{}` and executes `*o = op` only
on the success path, so every error return leaves the receiver as it was. -/
def Op.unmarshalJSONBrief (o : Op) (data : String) : Op × Ret :=
  match jsonDecodeScalars data with
  | none => (o, .err .badJson)
  | some unpacked =>
    match opDecodeLoop o unpacked o.d.columns 0 (.mk {}) with
    | .ok op => (op, .ok)
    | .err e => (o, .err e)
    | .panic k => (o, .panic k)

/-- Model of the object-form branch of `Op.UnmarshalJSON` (stdlib
`json.Unmarshal` through the `Alias` cast): reflection-based population is
not modelled; no claim exercises this branch. -/
def objectUnmarshalOp (o : Op) (_data : String) : Op × Ret :=
  (o, .ok)

/-- Embedding of `Op.UnmarshalJSON` (op.go:222-234): empty input, the literal
`null`, and any input of exactly two bytes return nil without touching the
receiver; a leading `[` dispatches to the columnar decoder; anything else to
object-form unmarshaling. -/
def Op.unmarshalJSON (o : Op) (data : String) : Op × Ret :=
  if data.length = 0 ∨ data = "null" then (o, .ok)
  else if data.length = 2 then (o, .ok)
  else if data.front = '[' then o.unmarshalJSONBrief data
  else objectUnmarshalOp o data

/-- Result of the contract type resolver collaborator for one address. -/
inductive ResolveResult where
  | found (s : ContractScript)
  | notFound
  | failed (e : GoErr)

/-- Modelled from the spec: `Client.loadCachedContractScript` (client code
not under the provided sources) is the read-through schema cache of §4.2;
`NotFound` is recoverable and yields a nil script with no error, so the
caller falls back to untyped decoding, while transport failures surface as
errors. -/
def loadCachedContractScript (resolver : String → ResolveResult) (a : Address) :
    Except GoErr (Option ContractScript) :=
  match resolver a.s with
  | .found s => .ok (some s)
  | .notFound => .ok none
  | .failed e => .error e

/-- Modelled from the spec: the repository helper `getTableColumn(data,
columns, name)` (not under the provided sources) peeks the raw cell at the
named column's position out of a columnar row, rendered as text (`"null"`
for a JSON null, matching the caller's `recv != "null"` guard). -/
def getTableColumn (data : String) (cols : List String) (name : String) : Option String :=
  match jsonDecodeScalars data with
  | none => none
  | some vals =>
    match cols.findIdx? (· = name) with
    | none => none
    | some i =>
      match vals[i]? with
      | none => none
      | some v => some v.render

/-- Embedding of one iteration of the row loop of `OpList.UnmarshalJSON`
(op.go:192-217): construct the fresh row record with the shared decode
context, resolve the contract script when the row is a contract call with a
non-empty receiver, decode the row, and clear its column list. -/
def opRowDecode (resolver : String → ResolveResult) (withPrim : Bool)
    (cols : List String) (v : String) : DResult Op :=
  let op0 : Op := .mk { withPrim := withPrim, columns := cols }
  let prep : Except GoErr Op :=
    match getTableColumn v cols "is_contract" with
    | some is =>
      if is = "1" then
        match getTableColumn v cols "receiver" with
        | some recv =>
          if recv ≠ "" ∧ recv ≠ "null" then
            match parseAddressGo recv with
            | .error _ => .error (.badReceiver recv)
            | .ok addr =>
              match loadCachedContractScript resolver addr with
              | .error e => .error e
              | .ok script => .ok (op0.withScript script)
          else .ok op0
        | none => .ok op0
      else .ok op0
    | none => .ok op0
  match prep with
  | .error e => .err e
  | .ok op1 =>
    match op1.unmarshalJSON v with
    | (op2, .ok) => .ok (op2.upd fun d => { d with columns := [] })
    | (_, .err e) => .err e
    | (_, .panic k) => .panic k

/-- Embedding of the row loop of `OpList.UnmarshalJSON` (op.go:181-220) after
the standard library has split the outer JSON array into raw per-row
messages. Successfully decoded rows are appended in input order; the first
row failure stops the loop, leaving earlier rows appended. -/
def OpList.unmarshalRows (resolver : String → ResolveResult) :
    OpList → List String → OpList × Ret
  | l, [] => (l, .ok)
  | l, v :: rest =>
    match opRowDecode resolver l.withPrim l.columns v with
    | .ok op => OpList.unmarshalRows resolver { l with rows := l.rows ++ [op] } rest
    | .err e => (l, .err e)
    | .panic k => (l, .panic k)

/-- Repository type `Block` (the claims-relevant fields; the `Metadata` and
`Rights` explorer-only fields, whose types live outside the provided sources
and which the columnar decoder never touches, are omitted). -/
structure Block where
  rowId : Nat := 0
  parentId : Nat := 0
  parentHash : Option BlockHash := none
  followerHash : Option BlockHash := none
  hash : BlockHash := {}
  isOrphan : Bool := false
  height : Int := 0
  cycle : Int := 0
  isCycleSnapshot : Bool := false
  timestamp : GoTime := .zero
  solvetime : Int := 0
  version : Int := 0
  validation : Int := 0
  fitness : Nat := 0
  priority : Int := 0
  nonce : String := ""
  votingPeriodKind : VotingPeriodKind := .invalid
  bakerId : Nat := 0
  baker : Address := {}
  slotMask : String := ""
  nSlotsEndorsed : Int := 0
  nOps : Int := 0
  nOpsFailed : Int := 0
  nOpsContract : Int := 0
  nOpsImplicit : Int := 0
  nTx : Int := 0
  nActivation : Int := 0
  nSeedNonce : Int := 0
  n2Baking : Int := 0
  n2Endorsement : Int := 0
  nEndorsement : Int := 0
  nDelegation : Int := 0
  nReveal : Int := 0
  nOrigination : Int := 0
  nProposal : Int := 0
  nBallot : Int := 0
  volume : GoFloat := .zero
  fee : GoFloat := .zero
  reward : GoFloat := .zero
  deposit : GoFloat := .zero
  unfrozenFees : GoFloat := .zero
  unfrozenRewards : GoFloat := .zero
  unfrozenDeposits : GoFloat := .zero
  activatedSupply : GoFloat := .zero
  burnedSupply : GoFloat := .zero
  seenAccounts : Int := 0
  newAccounts : Int := 0
  newImplicitAccounts : Int := 0
  newManagedAccounts : Int := 0
  newContracts : Int := 0
  clearedAccounts : Int := 0
  fundedAccounts : Int := 0
  gasLimit : Int := 0
  gasUsed : Int := 0
  gasPrice : GoFloat := .zero
  storageSize : Int := 0
  tdd : GoFloat := .zero
  pctAccountReuse : GoFloat := .zero
  lbEscapeVote : Bool := false
  lbEscapeEma : Int := 0
  ops : List Op := []
  columns : List String := []

/-- Embedding of the column switch of `Block.UnmarshalJSONBrief` (block
source lines 201-328): one case per known column, unrecognized names fall
through with no effect. The block decoder has no receiver-dependent
configuration, so only the scratch record is threaded. -/
def blockStep (b : Block) (c : String) (f : JsonVal) : DResult Block :=
  match c with
  | "row_id" => numFieldOp f (parseUintGo · 64) (fun n => { b with rowId := n })
  | "parent_id" => numFieldOp f (parseUintGo · 64) (fun n => { b with parentId := n })
  | "hash" => strFieldOp f parseBlockHashGo (fun h => { b with hash := h })
  | "predecessor" => strFieldOp f parseBlockHashGo (fun h => { b with parentHash := some h })
  | "is_orphan" => numFieldOp f parseBoolGo (fun x => { b with isOrphan := x })
  | "height" => numFieldOp f (parseIntGo · 64) (fun n => { b with height := n })
  | "cycle" => numFieldOp f (parseIntGo · 64) (fun n => { b with cycle := n })
  | "is_cycle_snapshot" => numFieldOp f parseBoolGo (fun x => { b with isCycleSnapshot := x })
  | "time" => numFieldOp f (parseIntGo · 64) (fun ts => { b with timestamp := .unixMilli ts })
  | "solvetime" => numFieldOp f atoiGo (fun n => { b with solvetime := n })
  | "version" => numFieldOp f atoiGo (fun n => { b with version := n })
  | "validation_pass" => numFieldOp f atoiGo (fun n => { b with validation := n })
  | "fitness" => numFieldOp f (parseUintGo · 64) (fun n => { b with fitness := n })
  | "priority" => numFieldOp f atoiGo (fun n => { b with priority := n })
  | "nonce" => strSoftOp f (fun s => { b with nonce := s })
  | "voting_period_kind" => strSoftOp f (fun s => { b with votingPeriodKind := parseVotingPeriodGo s })
  | "baker_id" => numFieldOp f (parseUintGo · 64) (fun n => { b with bakerId := n })
  | "slot_mask" => strSoftOp f (fun s => { b with slotMask := s })
  | "n_endorsed_slots" => numFieldOp f atoiGo (fun n => { b with nSlotsEndorsed := n })
  | "n_ops" => numFieldOp f atoiGo (fun n => { b with nOps := n })
  | "n_ops_failed" => numFieldOp f atoiGo (fun n => { b with nOpsFailed := n })
  | "n_ops_contract" => numFieldOp f atoiGo (fun n => { b with nOpsContract := n })
  | "n_ops_implicit" => numFieldOp f atoiGo (fun n => { b with nOpsImplicit := n })
  | "n_tx" => numFieldOp f atoiGo (fun n => { b with nTx := n })
  | "n_activation" => numFieldOp f atoiGo (fun n => { b with nActivation := n })
  | "n_seed_nonce_revelation" => numFieldOp f atoiGo (fun n => { b with nSeedNonce := n })
  | "n_double_baking_evidence" => numFieldOp f atoiGo (fun n => { b with n2Baking := n })
  | "n_double_endorsement_evidence" => numFieldOp f atoiGo (fun n => { b with n2Endorsement := n })
  | "n_endorsement" => numFieldOp f atoiGo (fun n => { b with nEndorsement := n })
  | "n_delegation" => numFieldOp f atoiGo (fun n => { b with nDelegation := n })
  | "n_reveal" => numFieldOp f atoiGo (fun n => { b with nReveal := n })
  | "n_origination" => numFieldOp f atoiGo (fun n => { b with nOrigination := n })
  | "n_proposal" => numFieldOp f atoiGo (fun n => { b with nProposal := n })
  | "n_ballot" => numFieldOp f atoiGo (fun n => { b with nBallot := n })
  | "volume" => numFieldOp f (parseFloatGo · 4) (fun x => { b with volume := x })
  | "fee" => numFieldOp f (parseFloatGo · 64) (fun x => { b with fee := x })
  | "reward" => numFieldOp f (parseFloatGo · 64) (fun x => { b with reward := x })
  | "deposit" => numFieldOp f (parseFloatGo · 64) (fun x => { b with deposit := x })
  | "unfrozen_fees" => numFieldOp f (parseFloatGo · 64) (fun x => { b with unfrozenFees := x })
  | "unfrozen_rewards" => numFieldOp f (parseFloatGo · 64) (fun x => { b with unfrozenRewards := x })
  | "unfrozen_deposits" => numFieldOp f (parseFloatGo · 64) (fun x => { b with unfrozenDeposits := x })
  | "activated_supply" => numFieldOp f (parseFloatGo · 64) (fun x => { b with activatedSupply := x })
  | "burned_supply" => numFieldOp f (parseFloatGo · 64) (fun x => { b with burnedSupply := x })
  | "n_accounts" => numFieldOp f atoiGo (fun n => { b with seenAccounts := n })
  | "n_new_accounts" => numFieldOp f atoiGo (fun n => { b with newAccounts := n })
  | "n_new_implicit" => numFieldOp f atoiGo (fun n => { b with newImplicitAccounts := n })
  | "n_new_managed" => numFieldOp f atoiGo (fun n => { b with newManagedAccounts := n })
  | "n_new_contracts" => numFieldOp f atoiGo (fun n => { b with newContracts := n })
  | "n_cleared_accounts" => numFieldOp f atoiGo (fun n => { b with clearedAccounts := n })
  | "n_funded_accounts" => numFieldOp f atoiGo (fun n => { b with fundedAccounts := n })
  | "gas_limit" => numFieldOp f (parseIntGo · 64) (fun n => { b with gasLimit := n })
  | "gas_used" => numFieldOp f (parseIntGo · 64) (fun n => { b with gasUsed := n })
  | "gas_price" => numFieldOp f (parseFloatGo · 64) (fun x => { b with gasPrice := x })
  | "storage_size" => numFieldOp f (parseIntGo · 64) (fun n => { b with storageSize := n })
  | "days_destroyed" => numFieldOp f (parseFloatGo · 64) (fun x => { b with tdd := x })
  | "pct_account_reuse" => numFieldOp f (parseFloatGo · 64) (fun x => { b with pctAccountReuse := x })
  | "baker" => strFieldOp f parseAddressGo (fun a => { b with baker := a })
  | "lb_esc_vote" => numFieldOp f parseBoolGo (fun x => { b with lbEscapeVote := x })
  | "lb_esc_ema" => numFieldOp f (parseIntGo · 64) (fun n => { b with lbEscapeEma := n })
  | _ => .ok b

/-- Embedding of the `for i, v := range b.columns` loop of
`Block.UnmarshalJSONBrief` (block source lines 196-332). -/
def blockDecodeLoop (unpacked : List JsonVal) : List String → Nat → Block → DResult Block
  | [], _, b => .ok b
  | c :: rest, i, b =>
    match unpacked[i]? with
    | none => .panic .indexOutOfRange
    | some .null => blockDecodeLoop unpacked rest (i + 1) b
    | some f =>
      match blockStep b c f with
      | .ok b' => blockDecodeLoop unpacked rest (i + 1) b'
      | .err e => .err e
      | .panic k => .panic k

/-- Embedding of `Block.UnmarshalJSONBrief` (block source lines 187-335):
scratch record, loop, and the final `*b = block` swap only on success. -/
def Block.unmarshalJSONBrief (b : Block) (data : String) : Block × Ret :=
  match jsonDecodeScalars data with
  | none => (b, .err .badJson)
  | some unpacked =>
    match blockDecodeLoop unpacked b.columns 0 {} with
    | .ok block => (block, .ok)
    | .err e => (b, .err e)
    | .panic k => (b, .panic k)

/-- Model of the object-form branch of `Block.UnmarshalJSON` (stdlib
reflection, not modelled; no claim exercises it). -/
def objectUnmarshalBlock (b : Block) (_data : String) : Block × Ret :=
  (b, .ok)

/-- Embedding of `Block.UnmarshalJSON` (block source lines 173-185). -/
def Block.unmarshalJSON (b : Block) (data : String) : Block × Ret :=
  if data.length = 0 ∨ data = "null" then (b, .ok)
  else if data.length = 2 then (b, .ok)
  else if data.front = '[' then b.unmarshalJSONBrief data
  else objectUnmarshalBlock b data

/-- Repository type `BlockList`. -/
structure BlockList where
  rows : List Block := []
  columns : List String := []

/-- Embedding of `BlockList.Len`. -/
def BlockList.len (l : BlockList) : Nat :=
  l.rows.length

/-- Embedding of `BlockList.Cursor` (block source lines 142-147). -/
def BlockList.cursor (l : BlockList) : Nat :=
  match l.rows.getLast? with
  | none => 0
  | some r => r.rowId

/-- Embedding of one iteration of the row loop of `BlockList.UnmarshalJSON`
(block source lines 160-169). -/
def blockRowDecode (cols : List String) (v : String) : DResult Block :=
  let b0 : Block := { columns := cols }
  match b0.unmarshalJSON v with
  | (b1, .ok) => .ok { b1 with columns := [] }
  | (_, .err e) => .err e
  | (_, .panic k) => .panic k

/-- Embedding of the row loop of `BlockList.UnmarshalJSON` (block source
lines 149-171) after the standard library has split the outer array. -/
def BlockList.unmarshalRows : BlockList → List String → BlockList × Ret
  | l, [] => (l, .ok)
  | l, v :: rest =>
    match blockRowDecode l.columns v with
    | .ok b => BlockList.unmarshalRows { l with rows := l.rows ++ [b] } rest
    | .err e => (l, .err e)
    | .panic k => (l, .panic k)

/-! Inversion and preservation lemmas about the decode steps. -/

theorem numFieldOp_ok {α β : Type} {f : JsonVal} {p : String → Except GoErr α}
    {set : α → β} {x : β} (h : numFieldOp f p set = .ok x) :
    ∃ s a, f = .num s ∧ p s = .ok a ∧ x = set a := by
  cases f <;> simp only [numFieldOp, JsonVal.asNumber] at h <;> try cases h
  case num s =>
    cases hp : p s <;> rw [hp] at h <;> try cases h
    case ok a => exact ⟨s, a, rfl, hp, rfl⟩

theorem strFieldOp_ok {α β : Type} {f : JsonVal} {p : String → Except GoErr α}
    {set : α → β} {x : β} (h : strFieldOp f p set = .ok x) :
    ∃ s a, f = .str s ∧ p s = .ok a ∧ x = set a := by
  cases f <;> simp only [strFieldOp, JsonVal.asString] at h <;> try cases h
  case str s =>
    cases hp : p s <;> rw [hp] at h <;> try cases h
    case ok a => exact ⟨s, a, rfl, hp, rfl⟩

theorem strSoftOp_ok {β : Type} {f : JsonVal} {set : String → β} {x : β}
    (h : strSoftOp f set = .ok x) : ∃ s, f = .str s ∧ x = set s := by
  cases f <;> simp only [strSoftOp, JsonVal.asString] at h <;> try cases h
  case str s => exact ⟨s, rfl, rfl⟩

theorem numFieldOp_ne_oor {α β : Type} (f : JsonVal) (p : String → Except GoErr α)
    (set : α → β) : numFieldOp f p set ≠ .panic .indexOutOfRange := by
  cases f <;> simp only [numFieldOp, JsonVal.asNumber] <;> try simp
  case num s => cases p s <;> simp

theorem strFieldOp_ne_oor {α β : Type} (f : JsonVal) (p : String → Except GoErr α)
    (set : α → β) : strFieldOp f p set ≠ .panic .indexOutOfRange := by
  cases f <;> simp only [strFieldOp, JsonVal.asString] <;> try simp
  case str s => cases p s <;> simp

theorem strSoftOp_ne_oor {β : Type} (f : JsonVal) (set : String → β) :
    strSoftOp f set ≠ .panic .indexOutOfRange := by
  cases f <;> simp [strSoftOp, JsonVal.asString]

theorem opStepParameters_shape {o op op' : Op} {f : JsonVal}
    (h : opStepParameters o op f = .ok op') :
    op' = op ∨ ∃ cp, op' = op.upd fun d => { d with parameters := some cp } := by
  unfold opStepParameters at h
  cases f <;> simp only [JsonVal.asString] at h <;> try cases h
  case str s =>
    repeat' split at h
    all_goals try cases h
    all_goals try (exact Or.inl rfl)
    all_goals exact Or.inr ⟨_, rfl⟩

theorem opStepStorage_shape {o op op' : Op} {f : JsonVal}
    (h : opStepStorage o op f = .ok op') :
    op' = op ∨ ∃ cv, op' = op.upd fun d => { d with storage := some cv } := by
  unfold opStepStorage at h
  cases f <;> simp only [JsonVal.asString] at h <;> try cases h
  case str s =>
    repeat' split at h
    all_goals try cases h
    all_goals try (exact Or.inl rfl)
    all_goals exact Or.inr ⟨_, rfl⟩

theorem opStepBigmapDiff_shape {o op op' : Op} {f : JsonVal}
    (h : opStepBigmapDiff o op f = .ok op') :
    op' = op ∨ ∃ rs, op' = op.upd fun d => { d with bigmapDiff := rs } := by
  unfold opStepBigmapDiff at h
  cases f <;> simp only [JsonVal.asString] at h <;> try cases h
  case str s =>
    repeat' split at h
    all_goals try cases h
    all_goals try (exact Or.inl rfl)
    all_goals exact Or.inr ⟨_, rfl⟩

theorem opStepParameters_ne_oor (o op : Op) (f : JsonVal) :
    opStepParameters o op f ≠ .panic .indexOutOfRange := by
  unfold opStepParameters
  cases f <;> simp only [JsonVal.asString] <;> try simp
  case str s =>
    repeat' split
    all_goals simp

theorem opStepStorage_ne_oor (o op : Op) (f : JsonVal) :
    opStepStorage o op f ≠ .panic .indexOutOfRange := by
  unfold opStepStorage
  cases f <;> simp only [JsonVal.asString] <;> try simp
  case str s =>
    repeat' split
    all_goals simp

theorem opStepBigmapDiff_ne_oor (o op : Op) (f : JsonVal) :
    opStepBigmapDiff o op f ≠ .panic .indexOutOfRange := by
  unfold opStepBigmapDiff
  cases f <;> simp only [JsonVal.asString] <;> try simp
  case str s =>
    repeat' split
    all_goals simp

/-- The column switch itself never indexes the value array: its only panics
are failed type assertions. -/
theorem opStep_ne_oor (o op : Op) (c : String) (f : JsonVal) :
    opStep o op c f ≠ .panic .indexOutOfRange := by
  unfold opStep
  split
  all_goals first
    | exact numFieldOp_ne_oor _ _ _
    | exact strFieldOp_ne_oor _ _ _
    | exact strSoftOp_ne_oor _ _
    | exact opStepParameters_ne_oor _ _ _
    | exact opStepStorage_ne_oor _ _ _
    | exact opStepBigmapDiff_ne_oor _ _ _
    | simp

/-- Only the `receiver`, `height` and `time` columns can change the scratch
fields that feed big-map provenance metadata. -/
theorem opStep_preserves_meta {o op op' : Op} {c : String} {f : JsonVal}
    (h : opStep o op c f = .ok op')
    (h1 : c ≠ "receiver") (h2 : c ≠ "height") (h3 : c ≠ "time") :
    op'.d.receiver = op.d.receiver ∧ op'.d.height = op.d.height ∧
      op'.d.timestamp = op.d.timestamp := by
  unfold opStep at h
  split at h
  all_goals first
    | exact absurd rfl h1
    | exact absurd rfl h2
    | exact absurd rfl h3
    | (cases h; simp)
    | (obtain ⟨s, a, hf, hp, rfl⟩ := numFieldOp_ok h; simp)
    | (obtain ⟨s, a, hf, hp, rfl⟩ := strFieldOp_ok h; simp)
    | (obtain ⟨s, hf, rfl⟩ := strSoftOp_ok h; simp)
    | (rcases opStepParameters_shape h with rfl | ⟨cp, rfl⟩ <;> simp)
    | (rcases opStepStorage_shape h with rfl | ⟨cv, rfl⟩ <;> simp)
    | (rcases opStepBigmapDiff_shape h with rfl | ⟨rs, rfl⟩ <;> simp)

/-- Only the `big_map_diff` column can change the scratch big-map diff
list. -/
theorem opStep_preserves_bigmapDiff {o op op' : Op} {c : String} {f : JsonVal}
    (h : opStep o op c f = .ok op') (hc : c ≠ "big_map_diff") :
    op'.d.bigmapDiff = op.d.bigmapDiff := by
  unfold opStep at h
  split at h
  all_goals first
    | exact absurd rfl hc
    | (cases h; simp)
    | (obtain ⟨s, a, hf, hp, rfl⟩ := numFieldOp_ok h; simp)
    | (obtain ⟨s, a, hf, hp, rfl⟩ := strFieldOp_ok h; simp)
    | (obtain ⟨s, hf, rfl⟩ := strSoftOp_ok h; simp)
    | (rcases opStepParameters_shape h with rfl | ⟨cp, rfl⟩ <;> simp)
    | (rcases opStepStorage_shape h with rfl | ⟨cv, rfl⟩ <;> simp)

theorem blockStep_ne_oor (b : Block) (c : String) (f : JsonVal) :
    blockStep b c f ≠ .panic .indexOutOfRange := by
  unfold blockStep
  split
  all_goals first
    | exact numFieldOp_ne_oor _ _ _
    | exact strFieldOp_ne_oor _ _ _
    | exact strSoftOp_ne_oor _ _
    | simp

/-! Lemmas about the column loops. -/

theorem opDecodeLoop_nil (o : Op) (u : List JsonVal) (i : Nat) (op : Op) :
    opDecodeLoop o u [] i op = .ok op := rfl

theorem opDecodeLoop_oor {o : Op} {u : List JsonVal} {c : String}
    {rest : List String} {i : Nat} {op : Op} (h : u[i]? = none) :
    opDecodeLoop o u (c :: rest) i op = .panic .indexOutOfRange := by
  simp [opDecodeLoop, h]

theorem opDecodeLoop_null {o : Op} {u : List JsonVal} {c : String}
    {rest : List String} {i : Nat} {op : Op} (h : u[i]? = some .null) :
    opDecodeLoop o u (c :: rest) i op = opDecodeLoop o u rest (i + 1) op := by
  simp [opDecodeLoop, h]

theorem opDecodeLoop_append (o : Op) (u : List JsonVal) (xs ys : List String)
    (i : Nat) (op : Op) :
    opDecodeLoop o u (xs ++ ys) i op =
      match opDecodeLoop o u xs i op with
      | .ok op' => opDecodeLoop o u ys (i + xs.length) op'
      | .err e => .err e
      | .panic k => .panic k := by
  induction xs generalizing i op with
  | nil => simp [opDecodeLoop]
  | cons c rest ih =>
    simp only [List.cons_append, opDecodeLoop]
    cases hu : u[i]? with
    | none => rfl
    | some f =>
      cases f <;> simp only [List.append_eq]
      case null =>
        rw [ih]
        simp [List.length_cons, Nat.add_comm, Nat.add_assoc, Nat.add_left_comm]
      all_goals
        (cases hs : opStep o op _ _ <;> simp only []
         first
          | (rw [ih];
             simp [List.length_cons, Nat.add_comm, Nat.add_assoc, Nat.add_left_comm])
          | rfl)

theorem opDecodeLoop_cons_val {o : Op} {u : List JsonVal} {c : String}
    {rest : List String} {i : Nat} {op : Op} {f : JsonVal}
    (hf : u[i]? = some f) (hnn : f ≠ .null) :
    opDecodeLoop o u (c :: rest) i op =
      match opStep o op c f with
      | .ok op' => opDecodeLoop o u rest (i + 1) op'
      | .err e => .err e
      | .panic k => .panic k := by
  cases f <;> simp [opDecodeLoop, hf] <;> simp at hnn

theorem opDecodeLoop_ne_oor {o : Op} {u : List JsonVal} {cols : List String}
    {i : Nat} {op : Op} (h : i + cols.length ≤ u.length) :
    opDecodeLoop o u cols i op ≠ .panic .indexOutOfRange := by
  induction cols generalizing i op with
  | nil => simp [opDecodeLoop]
  | cons c rest ih =>
    have hi : i < u.length := by
      simp only [List.length_cons] at h
      omega
    have hrest : i + 1 + rest.length ≤ u.length := by
      simp only [List.length_cons] at h
      omega
    obtain ⟨f, hf⟩ : ∃ f, u[i]? = some f := ⟨u[i], List.getElem?_eq_getElem hi⟩
    by_cases hnull : f = .null
    · subst hnull
      rw [opDecodeLoop_null hf]
      exact ih hrest
    · rw [opDecodeLoop_cons_val hf hnull]
      cases hs : opStep o op c f with
      | ok op2 =>
        exact show opDecodeLoop o u rest (i + 1) op2 ≠ .panic .indexOutOfRange from
          ih hrest
      | err e => simp
      | panic k =>
        simp only []
        intro hk
        cases hk
        exact opStep_ne_oor o op c f hs

theorem opDecodeLoop_all_null {o : Op} {u : List JsonVal} {cols : List String}
    {i : Nat} {op : Op} (h : ∀ j, j < cols.length → u[i + j]? = some .null) :
    opDecodeLoop o u cols i op = .ok op := by
  induction cols generalizing i with
  | nil => rfl
  | cons c rest ih =>
    have h0 : u[i]? = some .null := by simpa using h 0 (by simp)
    rw [opDecodeLoop_null h0]
    refine ih fun j hj => ?_
    have hx := h (j + 1) (by simp only [List.length_cons]; omega)
    rw [show i + 1 + j = i + (j + 1) by omega]
    exact hx

theorem blockDecodeLoop_nil (u : List JsonVal) (i : Nat) (b : Block) :
    blockDecodeLoop u [] i b = .ok b := rfl

theorem blockDecodeLoop_oor {u : List JsonVal} {c : String}
    {rest : List String} {i : Nat} {b : Block} (h : u[i]? = none) :
    blockDecodeLoop u (c :: rest) i b = .panic .indexOutOfRange := by
  simp [blockDecodeLoop, h]

theorem blockDecodeLoop_null {u : List JsonVal} {c : String}
    {rest : List String} {i : Nat} {b : Block} (h : u[i]? = some .null) :
    blockDecodeLoop u (c :: rest) i b = blockDecodeLoop u rest (i + 1) b := by
  simp [blockDecodeLoop, h]

theorem blockDecodeLoop_cons_val {u : List JsonVal} {c : String}
    {rest : List String} {i : Nat} {b : Block} {f : JsonVal}
    (hf : u[i]? = some f) (hnn : f ≠ .null) :
    blockDecodeLoop u (c :: rest) i b =
      match blockStep b c f with
      | .ok b' => blockDecodeLoop u rest (i + 1) b'
      | .err e => .err e
      | .panic k => .panic k := by
  cases f <;> simp [blockDecodeLoop, hf] <;> simp at hnn

theorem blockDecodeLoop_append (u : List JsonVal) (xs ys : List String)
    (i : Nat) (b : Block) :
    blockDecodeLoop u (xs ++ ys) i b =
      match blockDecodeLoop u xs i b with
      | .ok b' => blockDecodeLoop u ys (i + xs.length) b'
      | .err e => .err e
      | .panic k => .panic k := by
  induction xs generalizing i b with
  | nil => simp [blockDecodeLoop]
  | cons c rest ih =>
    simp only [List.cons_append, blockDecodeLoop]
    cases hu : u[i]? with
    | none => rfl
    | some f =>
      cases f <;> simp only [List.append_eq]
      case null =>
        rw [ih]
        simp [List.length_cons, Nat.add_comm, Nat.add_assoc, Nat.add_left_comm]
      all_goals
        (cases hs : blockStep b _ _ <;> simp only []
         first
          | (rw [ih];
             simp [List.length_cons, Nat.add_comm, Nat.add_assoc, Nat.add_left_comm])
          | rfl)

theorem blockDecodeLoop_ne_oor {u : List JsonVal} {cols : List String}
    {i : Nat} {b : Block} (h : i + cols.length ≤ u.length) :
    blockDecodeLoop u cols i b ≠ .panic .indexOutOfRange := by
  induction cols generalizing i b with
  | nil => simp [blockDecodeLoop]
  | cons c rest ih =>
    have hi : i < u.length := by
      simp only [List.length_cons] at h
      omega
    have hrest : i + 1 + rest.length ≤ u.length := by
      simp only [List.length_cons] at h
      omega
    obtain ⟨f, hf⟩ : ∃ f, u[i]? = some f := ⟨u[i], List.getElem?_eq_getElem hi⟩
    by_cases hnull : f = .null
    · subst hnull
      rw [blockDecodeLoop_null hf]
      exact ih hrest
    · rw [blockDecodeLoop_cons_val hf hnull]
      cases hs : blockStep b c f with
      | ok b2 =>
        exact show blockDecodeLoop u rest (i + 1) b2 ≠ .panic .indexOutOfRange from
          ih hrest
      | err e => simp
      | panic k =>
        simp only []
        intro hk
        cases hk
        exact blockStep_ne_oor b c f hs

theorem blockDecodeLoop_all_null {u : List JsonVal} {cols : List String}
    {i : Nat} {b : Block} (h : ∀ j, j < cols.length → u[i + j]? = some .null) :
    blockDecodeLoop u cols i b = .ok b := by
  induction cols generalizing i with
  | nil => rfl
  | cons c rest ih =>
    have h0 : u[i]? = some .null := by simpa using h 0 (by simp)
    rw [blockDecodeLoop_null h0]
    refine ih fun j hj => ?_
    have hx := h (j + 1) (by simp only [List.length_cons]; omega)
    rw [show i + 1 + j = i + (j + 1) by omega]
    exact hx

def DResult.isOk {α : Type} : DResult α → Bool
  | .ok _ => true
  | _ => false

def DResult.getOk {α : Type} [Inhabited α] : DResult α → α
  | .ok a => a
  | _ => default

/-- A result that tests ok is the ok of its payload. -/
theorem DResult.ok_of_isOk {α : Type} [Inhabited α] {r : DResult α}
    (h : r.isOk = true) : r = .ok r.getOk := by
  cases r <;> simp [DResult.isOk, DResult.getOk] at h ⊢

instance : Inhabited BigmapUpdate := ⟨{}⟩

instance : Inhabited Block := ⟨{}⟩

/-- A successful projection through a valid type always yields a semantic
value (only an invalid type yields `none`). -/
theorem valMap_ok_isSome {render : Int} {t : MichType} {p : MichPrim}
    {mv : Option SemVal} (h : valMap render t p = .ok mv)
    (ht : t.isValid = true) : mv.isSome := by
  unfold valMap at h
  rw [ht] at h
  simp only [Bool.not_true, Bool.false_eq_true, if_false] at h
  split at h
  · cases h; rfl
  · split at h
    · cases h; rfl
    · cases h

/-- Every record of a successful big-map diff decode comes from one of the
events. -/
theorem decodeBigmapList_mem {o op : Op} {evs : List BigmapEvent}
    {rs : List BigmapUpdate} (h : decodeBigmapList o op evs = .ok rs) :
    ∀ r ∈ rs, ∃ ev ∈ evs, bigmapUpdateOfEvent o op ev = .ok r := by
  induction evs generalizing rs with
  | nil =>
    cases h
    intro r hr
    cases hr
  | cons ev rest ih =>
    unfold decodeBigmapList at h
    cases hv : bigmapUpdateOfEvent o op ev <;> rw [hv] at h
    case error e => cases h
    case ok r0 =>
      cases hr : decodeBigmapList o op rest <;> rw [hr] at h
      case error e => cases h
      case ok rs0 =>
        cases h
        intro r hrm
        rcases List.mem_cons.mp hrm with rfl | hmem
        · exact ⟨ev, by simp, hv⟩
        · obtain ⟨ev2, hev2, hdec⟩ := ih hr r hmem
          exact ⟨ev2, by simp [hev2], hdec⟩

/-- The provenance metadata of any successfully decoded big-map record is
either absent or exactly the scratch record's receiver, timestamp and height
at the moment the `big_map_diff` column was processed. -/
theorem bigmapUpdateOfEvent_meta {o op : Op} {ev : BigmapEvent} {r : BigmapUpdate}
    (h : bigmapUpdateOfEvent o op ev = .ok r) :
    r.bigmapValue.meta = none ∨
      r.bigmapValue.meta = some { contract := op.d.receiver, bigmapId := ev.id,
                                  updateTime := op.d.timestamp, updateHeight := op.d.height } := by
  unfold bigmapUpdateOfEvent at h
  cases ha : ev.action <;> simp only [ha] at h
  case alloc =>
    cases h
    left
    rfl
  case copy =>
    cases h
    left
    rfl
  case update =>
    split at h
    case isFalse hne => exact absurd trivial hne
    case isTrue =>
      split at h
      case isTrue hval =>
        split at h
        case h_1 mv heq =>
          cases h
          by_cases hm : o.d.withMeta = true
          · right
            split_ifs <;> simp_all
          · left
            split_ifs <;> simp_all
        case h_2 e heq => cases h
      case isFalse hval =>
        cases h
        by_cases hm : o.d.withMeta = true
        · right
          split_ifs <;> simp_all
        · left
          split_ifs <;> simp_all
  case remove =>
    split at h
    case isTrue hx => cases hx
    case isFalse =>
      cases h
      by_cases hm : o.d.withMeta = true
      · right
        split_ifs <;> simp_all
      · left
        split_ifs <;> simp_all

/-- Whether the big-map value type for `id` is resolvable from the schema
table: the lookup succeeds and its right projection is a valid type (the
exact condition the decoder tests before projecting an update value). -/
def bigmapValueResolvable (m : List (Int × MichType)) (id : Int) : Bool :=
  match bigmapLookup m id with
  | some t => t.right.isValid
  | none => false

/-- Inversion of a successful `big_map_diff` column step: either the payload
was empty (scratch unchanged) or the scratch's diff list is replaced by a
successful event-list decode. -/
theorem opStepBigmapDiff_ok_strong {o op op' : Op} {f : JsonVal}
    (h : opStepBigmapDiff o op f = .ok op') :
    op' = op ∨ ∃ bmd rs, decodeBigmapList o op bmd = .ok rs ∧
      op' = op.upd fun d => { d with bigmapDiff := rs } := by
  unfold opStepBigmapDiff at h
  cases f <;> simp only [JsonVal.asString] at h <;> try cases h
  case str s =>
    split at h
    · cases h
    · split at h
      · cases h
        exact Or.inl rfl
      · split at h
        · cases h
        · split at h
          case h_1 rs heq =>
            cases h
            exact Or.inr ⟨_, rs, heq, rfl⟩
          case h_2 e heq => cases h

/-- Columns other than `receiver`, `height` and `time` leave the scratch
fields feeding provenance metadata untouched, over a whole column run. -/
theorem opDecodeLoop_preserves_meta {o : Op} {u : List JsonVal}
    {cols : List String} {i : Nat} {op op' : Op}
    (h : opDecodeLoop o u cols i op = .ok op')
    (h1 : "receiver" ∉ cols) (h2 : "height" ∉ cols) (h3 : "time" ∉ cols) :
    op'.d.receiver = op.d.receiver ∧ op'.d.height = op.d.height ∧
      op'.d.timestamp = op.d.timestamp := by
  induction cols generalizing i op with
  | nil =>
    cases h
    exact ⟨rfl, rfl, rfl⟩
  | cons c rest ih =>
    have hc1 : c ≠ "receiver" := fun hc => h1 (hc ▸ List.mem_cons_self c rest)
    have hc2 : c ≠ "height" := fun hc => h2 (hc ▸ List.mem_cons_self c rest)
    have hc3 : c ≠ "time" := fun hc => h3 (hc ▸ List.mem_cons_self c rest)
    have hr1 : "receiver" ∉ rest := fun hm => h1 (List.mem_cons_of_mem c hm)
    have hr2 : "height" ∉ rest := fun hm => h2 (List.mem_cons_of_mem c hm)
    have hr3 : "time" ∉ rest := fun hm => h3 (List.mem_cons_of_mem c hm)
    cases hu : u[i]?
    case none =>
      rw [opDecodeLoop_oor hu] at h
      cases h
    case some f =>
      by_cases hnull : f = .null
      · subst hnull
        rw [opDecodeLoop_null hu] at h
        exact ih h hr1 hr2 hr3
      · rw [opDecodeLoop_cons_val hu hnull] at h
        cases hs : opStep o op c f with
        | ok op2 =>
          simp only [hs] at h
          obtain ⟨p1, p2, p3⟩ := opStep_preserves_meta hs hc1 hc2 hc3
          obtain ⟨q1, q2, q3⟩ := ih h hr1 hr2 hr3
          exact ⟨q1.trans p1, q2.trans p2, q3.trans p3⟩
        | err e =>
          simp only [hs] at h
          cases h
        | panic k =>
          simp only [hs] at h
          cases h

/-- Columns other than `big_map_diff` leave the scratch diff list untouched,
over a whole column run. -/
theorem opDecodeLoop_preserves_bigmapDiff {o : Op} {u : List JsonVal}
    {cols : List String} {i : Nat} {op op' : Op}
    (h : opDecodeLoop o u cols i op = .ok op')
    (hc : "big_map_diff" ∉ cols) :
    op'.d.bigmapDiff = op.d.bigmapDiff := by
  induction cols generalizing i op with
  | nil =>
    cases h
    rfl
  | cons c rest ih =>
    have hc1 : c ≠ "big_map_diff" := fun hx => hc (hx ▸ List.mem_cons_self c rest)
    have hr : "big_map_diff" ∉ rest := fun hm => hc (List.mem_cons_of_mem c hm)
    cases hu : u[i]?
    case none =>
      rw [opDecodeLoop_oor hu] at h
      cases h
    case some f =>
      by_cases hnull : f = .null
      · subst hnull
        rw [opDecodeLoop_null hu] at h
        exact ih h hr
      · rw [opDecodeLoop_cons_val hu hnull] at h
        cases hs : opStep o op c f with
        | ok op2 =>
          simp only [hs] at h
          exact (ih h hr).trans (opStep_preserves_bigmapDiff hs hc1)
        | err e =>
          simp only [hs] at h
          cases h
        | panic k =>
          simp only [hs] at h
          cases h

/-- When every row of a batch decodes successfully, the operation list gains
exactly the decoded rows, in input order, and the call returns nil. -/
theorem opList_unmarshalRows_all_ok (resolver : String → ResolveResult)
    (l : OpList) (array : List String)
    (h : ∀ v ∈ array, (opRowDecode resolver l.withPrim l.columns v).isOk = true) :
    OpList.unmarshalRows resolver l array =
      ({ l with rows := l.rows ++
          array.map (fun v => (opRowDecode resolver l.withPrim l.columns v).getOk) }, .ok) := by
  induction array generalizing l with
  | nil => simp [OpList.unmarshalRows]
  | cons v rest ih =>
    have hv := h v (by simp)
    cases hr : opRowDecode resolver l.withPrim l.columns v <;>
      rw [hr] at hv <;> simp [DResult.isOk] at hv
    case ok op =>
      simp only [OpList.unmarshalRows, hr]
      have := ih { l with rows := l.rows ++ [op] } (fun w hw => h w (by simp [hw]))
      simp only at this
      rw [this]
      simp [DResult.getOk, hr]

/-- Block-list analogue of `opList_unmarshalRows_all_ok`. -/
theorem blockList_unmarshalRows_all_ok (l : BlockList) (array : List String)
    (h : ∀ v ∈ array, (blockRowDecode l.columns v).isOk = true) :
    BlockList.unmarshalRows l array =
      ({ l with rows := l.rows ++
          array.map (fun v => (blockRowDecode l.columns v).getOk) }, .ok) := by
  induction array generalizing l with
  | nil => simp [BlockList.unmarshalRows]
  | cons v rest ih =>
    have hv := h v (by simp)
    cases hr : blockRowDecode l.columns v <;>
      rw [hr] at hv <;> simp [DResult.isOk] at hv
    case ok b =>
      simp only [BlockList.unmarshalRows, hr]
      have := ih { l with rows := l.rows ++ [b] } (fun w hw => h w (by simp [hw]))
      simp only at this
      rw [this]
      simp [DResult.getOk, hr]

/-! Claim theorems. -/

/-- Operation used by the C1 counterexample: a batch child with id 2. -/
def c1Child : Op := .mk { id := 2 }

/-- Operation used by the C1 counterexample: a top-level row with id 1 whose
batch holds one child with id 2. -/
def c1Row : Op := .mk { id := 1, isBatch := true, batch := [c1Child] }

/-- Operation collection used by the C1 counterexample. -/
def c1List : OpList := { rows := [c1Row] }

/-- Claim C1 counterexample: `OpList.Cursor` does not resolve through nested
batch children. On a one-row collection whose row (id 1) carries a batch
child (id 2), `OpList.Cursor` returns the top-level id 1, while the claimed
deepest-last-child identifier (what `Op.Cursor` computes) is 2. -/
theorem claim_C1_counterexample :
    c1List.cursor = 1 ∧ c1Row.cursor = 2 ∧ c1List.cursor ≠ c1Row.cursor :=
  ⟨rfl, rfl, by decide⟩

/-- Claim C1 (amended): `OpList.Cursor` returns the "no cursor" sentinel 0 on
an empty collection and otherwise the last row's own top-level `Id`; the
deepest-last-child resolution (last internal of the last batch item, else the
last batch item, else the last internal, else the row itself) is what
`Op.Cursor` computes on a single operation, and `OpList.Cursor` does not
invoke it. -/
theorem claim_C1_amended :
    (∀ l : OpList, l.rows = [] → l.cursor = 0) ∧
    (∀ (l : OpList) (lastRow : Op), l.rows.getLast? = some lastRow →
      l.cursor = lastRow.d.id) ∧
    (∀ (o b i : Op), o.d.batch.getLast? = some b →
      b.d.internal.getLast? = some i → o.cursor = i.d.id) ∧
    (∀ (o b : Op), o.d.batch.getLast? = some b → b.d.internal = [] →
      o.cursor = b.d.id) ∧
    (∀ (o i : Op), o.d.batch = [] → o.d.internal.getLast? = some i →
      o.cursor = i.d.id) ∧
    (∀ o : Op, o.d.batch = [] → o.d.internal = [] → o.cursor = o.d.id) := by
  refine ⟨?_, ?_, ?_, ?_, ?_, ?_⟩
  · intro l hl
    simp [OpList.cursor, hl]
  · intro l r h
    simp [OpList.cursor, h]
  · intro o b i h1 h2
    simp [Op.cursor, h1, h2]
  · intro o b h1 h2
    simp [Op.cursor, h1, h2]
  · intro o i h1 h2
    simp [Op.cursor, h1, h2]
  · intro o h1 h2
    simp [Op.cursor, h1, h2]

/-- Witness for C1 (amended) at concrete inputs: the empty collection has
cursor 0; the one-row collection has the last row's id 1; the row with a
batch child (no internal) has `Op.Cursor` 2. -/
theorem claim_C1_witness :
    OpList.cursor {} = 0 ∧ c1List.cursor = 1 ∧ c1Row.cursor = 2 :=
  ⟨claim_C1_amended.1 {} rfl,
   claim_C1_amended.2.1 c1List c1Row rfl,
   claim_C1_amended.2.2.2.1 c1Row c1Child rfl rfl⟩

/-- Claim C10: an empty input, the JSON literal `null`, or any input of
exactly two bytes makes `Op.UnmarshalJSON` and `Block.UnmarshalJSON` return
success with every field of the receiver unchanged. -/
theorem claim_C10 (o : Op) (b : Block) (data : String)
    (h : data.length = 0 ∨ data = "null" ∨ data.length = 2) :
    o.unmarshalJSON data = (o, .ok) ∧ b.unmarshalJSON data = (b, .ok) := by
  unfold Op.unmarshalJSON Block.unmarshalJSON
  rcases h with h | h | h
  · simp [h]
  · simp [h]
  · have hne : ¬(data.length = 0 ∨ data = "null") := by
      rintro (h0 | rfl)
      · omega
      · exact absurd h (by decide)
    simp [hne, h]

/-- Witness for C10 at the two-byte payload "42" (a two-digit number, neither
an array nor an object). -/
theorem claim_C10_witness :
    (Op.mk {}).unmarshalJSON "42" = (.mk {}, .ok) ∧
    ({} : Block).unmarshalJSON "42" = ({}, .ok) :=
  claim_C10 (.mk {}) {} "42" (Or.inr (Or.inr (by decide)))

/-- Claim C7: a JSON null at any position is skipped silently by both
columnar decoders — the loop step on a null cell is the identity on the
scratch record and produces no error, so a row of all nulls decodes with no
error to the all-defaults scratch record. -/
theorem claim_C7 :
    (∀ (o : Op) (u : List JsonVal) (c : String) (rest : List String)
       (i : Nat) (op : Op), u[i]? = some .null →
       opDecodeLoop o u (c :: rest) i op = opDecodeLoop o u rest (i + 1) op) ∧
    (∀ (o : Op) (u : List JsonVal) (cols : List String),
       (∀ j, j < cols.length → u[j]? = some .null) →
       opDecodeLoop o u cols 0 (.mk {}) = .ok (.mk {})) ∧
    (∀ (u : List JsonVal) (c : String) (rest : List String)
       (i : Nat) (b : Block), u[i]? = some .null →
       blockDecodeLoop u (c :: rest) i b = blockDecodeLoop u rest (i + 1) b) ∧
    (∀ (u : List JsonVal) (cols : List String),
       (∀ j, j < cols.length → u[j]? = some .null) →
       blockDecodeLoop u cols 0 {} = .ok {}) := by
  refine ⟨?_, ?_, ?_, ?_⟩
  · intro o u c rest i op h
    exact opDecodeLoop_null h
  · intro o u cols h
    exact opDecodeLoop_all_null fun j hj => by simpa using h j hj
  · intro u c rest i b h
    exact blockDecodeLoop_null h
  · intro u cols h
    exact blockDecodeLoop_all_null fun j hj => by simpa using h j hj

/-- Witness for C7 at a concrete all-null row of two cells against two known
columns. -/
theorem claim_C7_witness :
    opDecodeLoop (.mk {}) [JsonVal.null, JsonVal.null] ["height", "hash"] 0 (.mk {}) =
      .ok (.mk {}) ∧
    blockDecodeLoop [JsonVal.null, JsonVal.null] ["height", "hash"] 0 {} = .ok {} :=
  ⟨claim_C7.2.1 (.mk {}) [JsonVal.null, JsonVal.null] ["height", "hash"] (by decide),
   claim_C7.2.2.2 [JsonVal.null, JsonVal.null] ["height", "hash"] (by decide)⟩

/-- Claim C8: both columnar decoders index the unpacked value array by
column position with no bounds check. When the value array is at least as
long as the column list every access is in bounds (no index panic is
possible); when the column list is strictly longer and the decode reaches
the extra column, the access panics with an index-out-of-range. -/
theorem claim_C8 :
    (∀ (o : Op) (u : List JsonVal) (cols : List String) (op : Op),
       cols.length ≤ u.length →
       opDecodeLoop o u cols 0 op ≠ .panic .indexOutOfRange) ∧
    (∀ (o : Op) (u : List JsonVal) (cols1 : List String) (c : String)
       (cols2 : List String) (op op1 : Op),
       u.length = cols1.length →
       opDecodeLoop o u cols1 0 op = .ok op1 →
       opDecodeLoop o u (cols1 ++ c :: cols2) 0 op = .panic .indexOutOfRange) ∧
    (∀ (u : List JsonVal) (cols : List String) (b : Block),
       cols.length ≤ u.length →
       blockDecodeLoop u cols 0 b ≠ .panic .indexOutOfRange) ∧
    (∀ (u : List JsonVal) (cols1 : List String) (c : String)
       (cols2 : List String) (b b1 : Block),
       u.length = cols1.length →
       blockDecodeLoop u cols1 0 b = .ok b1 →
       blockDecodeLoop u (cols1 ++ c :: cols2) 0 b = .panic .indexOutOfRange) := by
  refine ⟨?_, ?_, ?_, ?_⟩
  · intro o u cols op h
    exact opDecodeLoop_ne_oor (by omega)
  · intro o u cols1 c cols2 op op1 hlen hok
    rw [opDecodeLoop_append, hok]
    simp only [Nat.zero_add]
    exact opDecodeLoop_oor (by rw [List.getElem?_eq_none_iff]; omega)
  · intro u cols b h
    exact blockDecodeLoop_ne_oor (by omega)
  · intro u cols1 c cols2 b b1 hlen hok
    rw [blockDecodeLoop_append, hok]
    simp only [Nat.zero_add]
    exact blockDecodeLoop_oor (by rw [List.getElem?_eq_none_iff]; omega)

/-- Witness for C8: with one value and one column no index panic arises;
with no values and one column the decode panics out of range. -/
theorem claim_C8_witness :
    opDecodeLoop (.mk {}) [JsonVal.num "1"] ["height"] 0 (.mk {}) ≠
      .panic .indexOutOfRange ∧
    opDecodeLoop (.mk {}) [] ["height"] 0 (.mk {}) = .panic .indexOutOfRange ∧
    blockDecodeLoop [] ["height"] 0 {} = .panic .indexOutOfRange :=
  ⟨claim_C8.1 (.mk {}) [JsonVal.num "1"] ["height"] (.mk {}) (by decide),
   claim_C8.2.1 (.mk {}) [] [] "height" [] (.mk {}) (.mk {}) rfl rfl,
   claim_C8.2.2.2 [] [] "height" [] {} {} rfl rfl⟩

/-- Claim C4: the columnar decoders decode into a scratch record and swap it
into the target only on success, so any error return leaves the target
exactly as it was; and the first field-parse failure aborts the whole row and
is the error surfaced, regardless of the columns after it. -/
theorem claim_C4 :
    (∀ (o : Op) (data : String) (o2 : Op) (e : GoErr),
       o.unmarshalJSONBrief data = (o2, .err e) → o2 = o) ∧
    (∀ (o : Op) (u : List JsonVal) (cols1 : List String) (c : String)
       (cols2 : List String) (op1 : Op) (f : JsonVal) (e : GoErr),
       opDecodeLoop o u cols1 0 (.mk {}) = .ok op1 →
       u[cols1.length]? = some f → f ≠ .null →
       opStep o op1 c f = .err e →
       opDecodeLoop o u (cols1 ++ c :: cols2) 0 (.mk {}) = .err e) ∧
    (∀ (b : Block) (data : String) (b2 : Block) (e : GoErr),
       b.unmarshalJSONBrief data = (b2, .err e) → b2 = b) ∧
    (∀ (u : List JsonVal) (cols1 : List String) (c : String)
       (cols2 : List String) (b1 : Block) (f : JsonVal) (e : GoErr),
       blockDecodeLoop u cols1 0 {} = .ok b1 →
       u[cols1.length]? = some f → f ≠ .null →
       blockStep b1 c f = .err e →
       blockDecodeLoop u (cols1 ++ c :: cols2) 0 {} = .err e) := by
  refine ⟨?_, ?_, ?_, ?_⟩
  · intro o data o2 e h
    unfold Op.unmarshalJSONBrief at h
    cases hj : jsonDecodeScalars data <;> simp only [hj] at h
    case none => exact (Prod.ext_iff.mp h).1.symm
    case some u =>
      cases hl : opDecodeLoop o u o.d.columns 0 (.mk {}) <;> simp only [hl] at h
      case ok op => simp [Prod.ext_iff] at h
      case err e2 => exact (Prod.ext_iff.mp h).1.symm
      case panic k => simp [Prod.ext_iff] at h
  · intro o u cols1 c cols2 op1 f e hok hf hnn hstep
    rw [opDecodeLoop_append]
    simp only [hok, Nat.zero_add]
    rw [opDecodeLoop_cons_val hf hnn]
    simp only [hstep]
  · intro b data b2 e h
    unfold Block.unmarshalJSONBrief at h
    cases hj : jsonDecodeScalars data <;> simp only [hj] at h
    case none => exact (Prod.ext_iff.mp h).1.symm
    case some u =>
      cases hl : blockDecodeLoop u b.columns 0 {} <;> simp only [hl] at h
      case ok bl => simp [Prod.ext_iff] at h
      case err e2 => exact (Prod.ext_iff.mp h).1.symm
      case panic k => simp [Prod.ext_iff] at h
  · intro u cols1 c cols2 b1 f e hok hf hnn hstep
    rw [blockDecodeLoop_append]
    simp only [hok, Nat.zero_add]
    rw [blockDecodeLoop_cons_val hf hnn]
    simp only [hstep]

/-- Witness for C4: a row failing on its first column ("height" holding a
non-integer numeric string) surfaces that parse error and leaves a non-zero
target record untouched. -/
theorem claim_C4_witness :
    (Op.mk { height := 9, columns := ["height"] }).unmarshalJSONBrief "[1.5]" =
      (.mk { height := 9, columns := ["height"] }, .err (.badNum "ParseInt" "1.5")) ∧
    opDecodeLoop (.mk {}) [JsonVal.num "1.5"] (["height"] : List String) 0 (.mk {}) =
      .err (.badNum "ParseInt" "1.5") := by
  constructor
  · have hres : ((Op.mk { height := 9, columns := ["height"] }).unmarshalJSONBrief "[1.5]").2 =
        .err (.badNum "ParseInt" "1.5") := by decide
    have hfst := claim_C4.1 (.mk { height := 9, columns := ["height"] }) "[1.5]"
      ((Op.mk { height := 9, columns := ["height"] }).unmarshalJSONBrief "[1.5]").1
      (.badNum "ParseInt" "1.5")
    have : (Op.mk { height := 9, columns := ["height"] }).unmarshalJSONBrief "[1.5]" =
        (((Op.mk { height := 9, columns := ["height"] }).unmarshalJSONBrief "[1.5]").1,
         .err (.badNum "ParseInt" "1.5")) := by
      rw [← hres]
    rw [this, hfst this]
  · exact claim_C4.2.1 (.mk {}) [JsonVal.num "1.5"] [] "height" [] (.mk {})
      (.num "1.5") (.badNum "ParseInt" "1.5") rfl rfl (by decide) rfl

/-- Operation configured for the C2 counterexample: a single `height`
column. -/
def c2Op : Op := .mk { columns := ["height"] }

/-- Claim C2 counterexample: a text string where a number is expected does
not return a `MalformedField` error — the decode panics on the unchecked
type assertion `f.(json.Number)` (a crash, not a returned error). -/
theorem claim_C2_counterexample :
    (c2Op.unmarshalJSONBrief "[\"abc\"]").2 = .panic .typeAssert ∧
    ((c2Op.unmarshalJSONBrief "[\"abc\"]").2).isErr = false := by
  exact ⟨by decide, by decide⟩

/-- Claim C2 (amended): a known column whose position holds a value of the
wrong JSON kind makes the decoder panic through an unchecked Go type
assertion (a crash, not a returned error); only a value of the expected JSON
kind whose text fails the field's parser (for example a non-integer numeric
string for an integer column) returns the parse error to the caller. -/
theorem claim_C2_amended :
    (∀ (o op : Op) (s : String), opStep o op "height" (.str s) = .panic .typeAssert) ∧
    (∀ (o op : Op) (b : Bool), opStep o op "is_success" (.bool b) = .panic .typeAssert) ∧
    (∀ (o op : Op) (s : String), opStep o op "hash" (.num s) = .panic .typeAssert) ∧
    (∀ o op : Op, opStep o op "height" (.num "1.5") = .err (.badNum "ParseInt" "1.5")) ∧
    (∀ (b : Block) (s : String), blockStep b "height" (.str s) = .panic .typeAssert) ∧
    (∀ (b : Block) (x : Bool), blockStep b "is_orphan" (.bool x) = .panic .typeAssert) ∧
    (∀ b : Block, blockStep b "height" (.num "7.5") = .err (.badNum "ParseInt" "7.5")) := by
  refine ⟨?_, ?_, ?_, ?_, ?_, ?_, ?_⟩ <;> intros <;> rfl

/-- Claim C6: a batch of N columnar rows in which every row decodes
successfully produces a collection of exactly N records, appended in the
original input order. -/
theorem claim_C6 :
    (∀ (resolver : String → ResolveResult) (wp : Bool) (cols : List String)
       (array : List String),
       (∀ v ∈ array, (opRowDecode resolver wp cols v).isOk = true) →
       OpList.unmarshalRows resolver { withPrim := wp, columns := cols } array =
         ({ rows := array.map (fun v => (opRowDecode resolver wp cols v).getOk),
            withPrim := wp, columns := cols }, .ok) ∧
       (OpList.unmarshalRows resolver { withPrim := wp, columns := cols }
           array).1.rows.length = array.length) ∧
    (∀ (cols : List String) (array : List String),
       (∀ v ∈ array, (blockRowDecode cols v).isOk = true) →
       BlockList.unmarshalRows { columns := cols } array =
         ({ rows := array.map (fun v => (blockRowDecode cols v).getOk),
            columns := cols }, .ok) ∧
       (BlockList.unmarshalRows { columns := cols } array).1.rows.length =
         array.length) := by
  constructor
  · intro resolver wp cols array h
    have hmain := opList_unmarshalRows_all_ok resolver
      { withPrim := wp, columns := cols } array h
    refine ⟨by simpa using hmain, ?_⟩
    rw [hmain]
    simp
  · intro cols array h
    have hmain := blockList_unmarshalRows_all_ok { columns := cols } array h
    refine ⟨by simpa using hmain, ?_⟩
    rw [hmain]
    simp

/-- Witness for C6: two operation rows and one block row, each a singleton
array against a single `height` column, all decoding successfully. -/
theorem claim_C6_witness :
    (∀ v ∈ ["[1]", "[2]"],
       (opRowDecode (fun _ => ResolveResult.notFound) false ["height"] v).isOk = true) ∧
    (OpList.unmarshalRows (fun _ => ResolveResult.notFound)
        { withPrim := false, columns := ["height"] } ["[1]", "[2]"]).1.rows.length = 2 ∧
    (∀ v ∈ ["[7]"], (blockRowDecode ["height"] v).isOk = true) ∧
    (BlockList.unmarshalRows { columns := ["height"] } ["[7]"]).1.rows.length = 1 := by
  refine ⟨by decide, ?_, by decide, ?_⟩
  · have := (claim_C6.1 (fun _ => ResolveResult.notFound) false ["height"]
      ["[1]", "[2]"] (by decide)).2
    simpa using this
  · have := (claim_C6.2 ["height"] ["[7]"] (by decide)).2
    simpa using this

/-- Claim C5: in every successfully decoded big-map record, alloc and copy
records never carry a decoded value; update records carry a decoded semantic
value exactly when the big-map's value type was resolvable from the schema
table; remove records never carry a decoded value even when it is
resolvable; and every record of a successful diff decode arises from one of
the events. -/
theorem claim_C5 :
    (∀ (o op : Op) (ev : BigmapEvent) (r : BigmapUpdate),
       bigmapUpdateOfEvent o op ev = .ok r →
       (((ev.action = .alloc ∨ ev.action = .copy) → r.bigmapValue.value = none) ∧
        (ev.action = .remove → r.bigmapValue.value = none) ∧
        (ev.action = .update →
          r.bigmapValue.value.isSome = bigmapValueResolvable o.d.bigmaps ev.id))) ∧
    (∀ (o op : Op) (evs : List BigmapEvent) (rs : List BigmapUpdate),
       decodeBigmapList o op evs = .ok rs →
       ∀ r ∈ rs, ∃ ev ∈ evs, bigmapUpdateOfEvent o op ev = .ok r) := by
  constructor
  · intro o op ev r h
    refine ⟨?_, ?_, ?_⟩
    · intro hac
      unfold bigmapUpdateOfEvent at h
      rcases hac with ha | ha <;> simp only [ha] at h <;> (cases h; rfl)
    · intro ha
      unfold bigmapUpdateOfEvent at h
      simp only [ha] at h
      split at h
      case isTrue hx => cases hx
      case isFalse =>
        cases h
        simp only []
        split_ifs <;> simp_all
    · intro ha
      unfold bigmapUpdateOfEvent at h
      simp only [ha] at h
      split at h
      case isFalse hne => exact absurd trivial hne
      case isTrue =>
        unfold bigmapValueResolvable
        cases hb : bigmapLookup o.d.bigmaps ev.id <;> simp only [hb] at h ⊢
        case none =>
          rw [if_neg (by decide)] at h
          cases h
          simp only []
          split_ifs <;> simp_all
        case some typ =>
          by_cases hv : typ.right.isValid = true
          · rw [if_pos hv] at h
            split at h
            next mv heq =>
              cases h
              have hsome := valMap_ok_isSome heq hv
              simp only [hv]
              simpa using hsome
            next e heq => cases h
          · rw [if_neg hv] at h
            cases h
            simp only [Bool.not_eq_true] at hv
            simp only [hv]
            split_ifs <;> simp_all
  · intro o op evs rs h
    exact decodeBigmapList_mem h

/-- Schema configuration for the C5 witness: big-map 1 has a pair type whose
right (value) component is valid. -/
def c5cfg : Op := .mk { bigmaps := [(1, ⟨.node 7 [.int 1, .int 2]⟩)] }

/-- An update event on big-map 1 (C5 witness data). -/
def c5evUpdate : BigmapEvent :=
  { action := .update, id := 1, key := .int 3, keyHash := "5", value := .int 4 }

/-- A remove event on big-map 1 (C5 witness data). -/
def c5evRemove : BigmapEvent :=
  { action := .remove, id := 1, key := .int 3, keyHash := "5", value := .int 4 }

/-- An alloc event on big-map 1 (C5 witness data). -/
def c5evAlloc : BigmapEvent := { action := .alloc, id := 1 }

/-- The decoded record of the C5 update event. -/
def c5rUpdate : BigmapUpdate :=
  match bigmapUpdateOfEvent c5cfg (.mk {}) c5evUpdate with
  | .ok r => r
  | .error _ => {}

/-- The decoded record of the C5 remove event. -/
def c5rRemove : BigmapUpdate :=
  match bigmapUpdateOfEvent c5cfg (.mk {}) c5evRemove with
  | .ok r => r
  | .error _ => {}

/-- The decoded record of the C5 alloc event. -/
def c5rAlloc : BigmapUpdate :=
  match bigmapUpdateOfEvent c5cfg (.mk {}) c5evAlloc with
  | .ok r => r
  | .error _ => {}

/-- Witness for C5: with a resolvable value type for big-map 1, the update
record carries a value, while the remove and alloc records do not. -/
theorem claim_C5_witness :
    bigmapValueResolvable c5cfg.d.bigmaps 1 = true ∧
    bigmapUpdateOfEvent c5cfg (.mk {}) c5evUpdate = .ok c5rUpdate ∧
    c5rUpdate.bigmapValue.value.isSome = true ∧
    bigmapUpdateOfEvent c5cfg (.mk {}) c5evRemove = .ok c5rRemove ∧
    c5rRemove.bigmapValue.value = none ∧
    bigmapUpdateOfEvent c5cfg (.mk {}) c5evAlloc = .ok c5rAlloc ∧
    c5rAlloc.bigmapValue.value = none := by
  refine ⟨by decide, rfl, ?_, rfl, ?_, rfl, ?_⟩
  · have := (claim_C5.1 c5cfg (.mk {}) c5evUpdate c5rUpdate rfl).2.2 rfl
    exact this.trans (by decide)
  · exact (claim_C5.1 c5cfg (.mk {}) c5evRemove c5rRemove rfl).2.1 rfl
  · exact (claim_C5.1 c5cfg (.mk {}) c5evAlloc c5rAlloc rfl).1 (Or.inl rfl)

/-- Claim C9: when provenance metadata is requested, each big-map
update/remove record's metadata takes the Receiver, Height and Timestamp
already parsed into the scratch record from columns processed earlier in the
same row; when the receiver, height and time columns only appear after
`big_map_diff` (or not at all), every attached metadata record holds the
zero value for those fields instead of the row's actual values. -/
theorem claim_C9 :
    (∀ (o op : Op) (ev : BigmapEvent) (r : BigmapUpdate),
       o.d.withMeta = true →
       (ev.action = .update ∨ ev.action = .remove) →
       bigmapUpdateOfEvent o op ev = .ok r →
       r.bigmapValue.meta = some { contract := op.d.receiver, bigmapId := ev.id,
                                   updateTime := op.d.timestamp,
                                   updateHeight := op.d.height }) ∧
    (∀ (o : Op) (u : List JsonVal) (cols1 cols2 : List String) (result : Op),
       "receiver" ∉ cols1 → "height" ∉ cols1 → "time" ∉ cols1 →
       "big_map_diff" ∉ cols1 → "big_map_diff" ∉ cols2 →
       opDecodeLoop o u (cols1 ++ "big_map_diff" :: cols2) 0 (.mk {}) = .ok result →
       ∀ r ∈ result.d.bigmapDiff, ∀ m, r.bigmapValue.meta = some m →
         m.contract = {} ∧ m.updateHeight = 0 ∧ m.updateTime = .zero) := by
  constructor
  · intro o op ev r hm ha h
    unfold bigmapUpdateOfEvent at h
    rcases ha with ha | ha <;> simp only [ha] at h
    · split at h
      case isFalse hne => exact absurd trivial hne
      case isTrue =>
        split at h
        · split at h
          next mv heq =>
            cases h
            simp only [hm]
            split_ifs <;> simp_all
          next e heq => cases h
        · cases h
          simp only [hm]
          split_ifs <;> simp_all
    · split at h
      case isTrue hx => cases hx
      case isFalse =>
        cases h
        simp only [hm]
        split_ifs <;> simp_all
  · intro o u cols1 cols2 result h1 h2 h3 h4 h5 hdec
    rw [opDecodeLoop_append] at hdec
    cases hpre : opDecodeLoop o u cols1 0 (.mk {}) <;> simp only [hpre] at hdec
    case err e => cases hdec
    case panic k => cases hdec
    case ok op1 =>
      obtain ⟨hrcv, hht, hts⟩ := opDecodeLoop_preserves_meta hpre h1 h2 h3
      have hb1 := opDecodeLoop_preserves_bigmapDiff hpre h4
      simp only [Nat.zero_add] at hdec
      cases hu : u[cols1.length]? with
      | none =>
        rw [opDecodeLoop_oor hu] at hdec
        cases hdec
      | some f =>
        by_cases hnull : f = .null
        · subst hnull
          rw [opDecodeLoop_null hu] at hdec
          have hb2 := opDecodeLoop_preserves_bigmapDiff hdec h5
          intro r hr
          rw [hb2, hb1] at hr
          simp at hr
        · rw [opDecodeLoop_cons_val hu hnull] at hdec
          cases hs : opStep o op1 "big_map_diff" f <;> simp only [hs] at hdec <;>
            try cases hdec
          next op2 =>
            have hb2 := opDecodeLoop_preserves_bigmapDiff hdec h5
            have hs2 : opStepBigmapDiff o op1 f = .ok op2 := hs
            rcases opStepBigmapDiff_ok_strong hs2 with rfl | ⟨bmd, rs, hlist, rfl⟩
            · intro r hr
              rw [hb2, hb1] at hr
              simp at hr
            · intro r hr
              rw [hb2] at hr
              simp only [Op.upd_d] at hr
              obtain ⟨ev, hev, hone⟩ := decodeBigmapList_mem hlist r hr
              intro m hmeta
              rcases bigmapUpdateOfEvent_meta hone with hnone | hsome
              · rw [hnone] at hmeta
                cases hmeta
              · rw [hsome] at hmeta
                cases hmeta
                refine ⟨?_, ?_, ?_⟩
                · exact hrcv.trans rfl
                · exact hht.trans rfl
                · exact hts.trans rfl

/-- Receiver configuration for the C9 witness (metadata requested). -/
def c9cfg : Op := .mk { withMeta := true }

/-- Scratch record mid-row for the C9 witness: receiver, height and time
already parsed. -/
def c9op : Op := .mk { receiver := ⟨"KT1aaaaaaaaaaaaaaaaaaaaaaaaaaaaaaaaa"⟩,
                       height := 7, timestamp := .unixMilli 3 }

/-- An update event on big-map 1 (C9 witness data). -/
def c9ev : BigmapEvent :=
  { action := .update, id := 1, key := .int 3, keyHash := "5", value := .int 4 }

/-- The decoded record of the C9 event against the mid-row scratch. -/
def c9r : BigmapUpdate :=
  match bigmapUpdateOfEvent c9cfg c9op c9ev with
  | .ok r => r
  | .error _ => {}

/-- Row values for the C9 witness: the big-map blob comes before the
receiver column. -/
def c9u : List JsonVal :=
  [.str "0201030405", .str "KT1aaaaaaaaaaaaaaaaaaaaaaaaaaaaaaaaa"]

/-- The decoded row of the C9 witness. -/
def c9result : Op :=
  (opDecodeLoop c9cfg c9u ([] ++ "big_map_diff" :: ["receiver"]) 0 (.mk {})).getOk

/-- Witness for C9: the metadata of a record decoded mid-row carries the
scratch receiver/height/time, and in a row whose receiver column comes after
`big_map_diff` every attached metadata holds zero values. -/
theorem claim_C9_witness :
    bigmapUpdateOfEvent c9cfg c9op c9ev = .ok c9r ∧
    c9r.bigmapValue.meta = some { contract := c9op.d.receiver, bigmapId := 1,
                                  updateTime := c9op.d.timestamp,
                                  updateHeight := c9op.d.height } ∧
    opDecodeLoop c9cfg c9u ([] ++ "big_map_diff" :: ["receiver"]) 0 (.mk {}) =
      .ok c9result ∧
    (∀ r ∈ c9result.d.bigmapDiff, ∀ m, r.bigmapValue.meta = some m →
      m.contract = {} ∧ m.updateHeight = 0 ∧ m.updateTime = .zero) := by
  have hdec : opDecodeLoop c9cfg c9u ([] ++ "big_map_diff" :: ["receiver"]) 0 (.mk {}) =
      .ok c9result := DResult.ok_of_isOk (by decide)
  refine ⟨rfl, ?_, hdec, ?_⟩
  · exact claim_C9.1 c9cfg c9op c9ev c9r rfl (Or.inl rfl) rfl
  · exact claim_C9.2 c9cfg c9u [] ["receiver"] c9result (by decide) (by decide)
      (by decide) (by decide) (by decide) hdec

/-- Claim C3: a NotFound schema lookup does not fail the columnar row
decode. The cache helper converts NotFound into a nil script with no error;
the row loop then decodes the row with invalidated types instead of
returning an error; under invalid types the storage and parameter columns
decode untyped (raw primitive only, no projected semantic value) and an
update event with no schema entry decodes with no value and no error; and a
successfully decoded row lets the batch loop continue with the row
appended. -/
theorem claim_C3 :
    (∀ (resolver : String → ResolveResult) (a : Address),
       resolver a.s = .notFound →
       loadCachedContractScript resolver a = .ok none) ∧
    (∀ (resolver : String → ResolveResult) (wp : Bool) (cols : List String)
       (v recv : String) (addr : Address),
       getTableColumn v cols "is_contract" = some "1" →
       getTableColumn v cols "receiver" = some recv →
       recv ≠ "" → recv ≠ "null" →
       parseAddressGo recv = .ok addr →
       resolver addr.s = .notFound →
       opRowDecode resolver wp cols v =
         (match ((Op.mk { withPrim := wp, columns := cols }).withScript
             none).unmarshalJSON v with
          | (op2, .ok) => .ok (op2.upd fun d => { d with columns := [] })
          | (_, .err e) => .err e
          | (_, .panic k) => .panic k)) ∧
    (∀ (o op : Op) (s : String) (buf : List Nat) (prim : MichPrim),
       o.d.store.isValid = false →
       hexDecodeString s = .ok buf → buf ≠ [] →
       primUnmarshalBinary buf = .ok prim →
       opStepStorage o op (.str s) =
         .ok (op.upd fun d =>
           let cv : ContractValue :=
             { value := none,
               prim := if o.d.withPrim = true then some prim else none }
           { d with storage := some cv })) ∧
    (∀ (o op : Op) (s : String) (buf : List Nat) (ps : MichParameters),
       o.d.param.isValid = false →
       hexDecodeString s = .ok buf → buf ≠ [] →
       paramsUnmarshalBinary buf = .ok ps →
       opStepParameters o op (.str s) =
         .ok (op.upd fun d =>
           let cp : ContractParameters :=
             { entrypoint := ps.entrypoint,
               cv := { value := none,
                       prim := if o.d.withPrim = true then some ps.value else none } }
           { d with parameters := some cp })) ∧
    (∀ (o op : Op) (ev : BigmapEvent),
       bigmapLookup o.d.bigmaps ev.id = none →
       ev.action = .update →
       ∃ r, bigmapUpdateOfEvent o op ev = .ok r ∧ r.bigmapValue.value = none) ∧
    (∀ (resolver : String → ResolveResult) (l : OpList) (v : String)
       (rest : List String) (op : Op),
       opRowDecode resolver l.withPrim l.columns v = .ok op →
       OpList.unmarshalRows resolver l (v :: rest) =
         OpList.unmarshalRows resolver { l with rows := l.rows ++ [op] } rest) := by
  refine ⟨?_, ?_, ?_, ?_, ?_, ?_⟩
  · intro resolver a h
    unfold loadCachedContractScript
    rw [h]
  · intro resolver wp cols v recv addr hic hrecv hne1 hne2 haddr hnf
    unfold opRowDecode
    simp only [hic, hrecv]
    rw [if_pos (show recv ≠ "" ∧ recv ≠ "null" from ⟨hne1, hne2⟩)]
    simp only [haddr, loadCachedContractScript, hnf]
    rfl
  · intro o op s buf prim hstore hhex hbuf hprim
    unfold opStepStorage
    simp only [JsonVal.asString, hhex, hprim, hstore]
    rw [if_neg hbuf]
    simp only [Bool.false_eq_true, if_false]
    by_cases hp : o.d.withPrim = true <;> simp [hp]
  · intro o op s buf ps hparam hhex hbuf hps
    unfold opStepParameters
    simp only [JsonVal.asString, hhex, hps]
    rw [if_neg hbuf]
    unfold valMap mapEntrypoint
    simp only [hparam, Bool.not_false, if_true]
    by_cases hp : o.d.withPrim = true <;> simp [hp]
  · intro o op ev hl ha
    unfold bigmapUpdateOfEvent
    simp only [hl, ha]
    rw [if_pos (show True from trivial)]
    rw [if_neg (show ¬(({} : MichType).isValid = true) by decide)]
    refine ⟨_, rfl, ?_⟩
    simp only []
    split_ifs <;> simp_all
  · intro resolver l v rest op h
    simp only [OpList.unmarshalRows, h]

/-- Resolver for the C3 witness: every address reports NotFound. -/
def c3resolver : String → ResolveResult := fun _ => .notFound

/-- Column list for the C3 witness. -/
def c3cols : List String := ["is_contract", "receiver", "storage"]

/-- Columnar row for the C3 witness: a contract call with a receiver and a
binary storage payload. -/
def c3row : String := "[1,\"KT1aaaaaaaaaaaaaaaaaaaaaaaaaaaaaaaaa\",\"0005\"]"

/-- The receiver address of the C3 witness row. -/
def c3addr : Address := ⟨"KT1aaaaaaaaaaaaaaaaaaaaaaaaaaaaaaaaa"⟩

/-- The successfully decoded row of the C3 witness. -/
def c3op : Op := (opRowDecode c3resolver false c3cols c3row).getOk

/-- An update event with no schema entry (C3 witness data). -/
def c3ev : BigmapEvent :=
  { action := .update, id := 1, key := .int 3, keyHash := "5", value := .int 4 }

/-- Witness for C3: with a NotFound resolver, the schema load yields a nil
script with no error, the contract row still decodes successfully, an
unresolvable update event decodes with no value, and the batch continues
with the row appended. -/
theorem claim_C3_witness :
    loadCachedContractScript c3resolver c3addr = .ok none ∧
    opRowDecode c3resolver false c3cols c3row = .ok c3op ∧
    (∃ r, bigmapUpdateOfEvent (.mk {}) (.mk {}) c3ev = .ok r ∧
       r.bigmapValue.value = none) ∧
    OpList.unmarshalRows c3resolver { columns := c3cols } [c3row] =
      ({ rows := [c3op], columns := c3cols }, .ok) := by
  have hok : opRowDecode c3resolver false c3cols c3row = .ok c3op :=
    DResult.ok_of_isOk (by decide)
  refine ⟨claim_C3.1 c3resolver c3addr rfl, hok, ?_, ?_⟩
  · exact claim_C3.2.2.2.2.1 (.mk {}) (.mk {}) c3ev rfl rfl
  · have hstep := claim_C3.2.2.2.2.2 c3resolver { columns := c3cols } c3row [] c3op hok
    rw [hstep]
    rfl
